import Mathlib

/-!
# libsrt: sharded map (`sdmap.c`)

Shallow embedding of `src/src/sdmap.c`, followed by the node constants of
`src/src/stree.h` and the node rendering of `src/src/sdbg.c`.

Conventions of the embedding

* Build: the non-debug build, in which `S_ASSERT` expands to nothing and
  `ASSERT_RETURN_IF(c, v)` is `if (c) return v;`.
* Machine integers: `size_t` is an unsigned 64-bit integer and `unsigned` an
  unsigned 32-bit integer (LP64); `int64_t` keys are integers in
  `[-2^63, 2^63)`.  Values are `Nat`/`Int` with explicit reduction modulo
  `2^64` or `2^32` wherever the C arithmetic can wrap.
* Pointers: a nullable pointer is an `Option`; `none` is `NULL`.
* Calls that leave `sdmap.c` (`__sd_malloc`, `sm_alloc`, `sm_dup`, `sm_reset`,
  `sm_shrink`, user supplied routers, the checksum) are answered by a `World`, and every
  such call with an effect is appended to an event trace returned next to the
  result.
* Undefined behaviour (division by zero, call through a `NULL` function
  pointer) is the result `none` of the routing functions.
* Memory: the container block has as many submap slots as fit in the
  `alloc_size` bytes requested (`sdm_block_slots`).  A write past these slots
  is undefined behaviour: the model drops the write, a read there yields
  `NULL`, and a constructor whose loop ran to the end with such a write
  returns no object.
-/

namespace Sdmap

/-! ## Machine constants -/

/-- Number of values of `size_t` (64-bit). -/
def SIZE_MOD : Nat := 2 ^ 64

/-- Number of values of `unsigned` (32-bit). -/
def UINT_MOD : Nat := 2 ^ 32

/-- Range of `int64_t`. -/
def is_int64 (k : Int) : Prop := -(2 ^ 63 : Int) ≤ k ∧ k < (2 ^ 63 : Int)

instance (k : Int) : Decidable (is_int64 k) := by
  unfold is_int64; infer_instance

/-- Conversion of an `int64_t` to `size_t` (the usual arithmetic conversion
applied to `k` in `k % dm->nmaps`, `nmaps` being a `size_t`). -/
def to_size_t (k : Int) : Nat := (k % (SIZE_MOD : Int)).toNat

/-- Modelled from the spec: `sizeof(sdm_t)`.  `struct S_DMap` is declared in
`sdmap.h`, which is not among the sources; it holds the shard count, the two
router pointers and the one-element array `maps[1]` (sdmap.c:64 adds
`nsubmaps - 1` further slots), four 8-byte words on LP64. -/
def SIZEOF_SDM_T : Nat := 32

/-- Size of a submap pointer, `sizeof(sm_t *)`, on LP64. -/
def SIZEOF_SM_PTR : Nat := 8

/-- The allocation size of sdmap.c:64 and sdmap.c:128:
`sizeof(sdm_t) + sizeof(sm_t *) * (nsubmaps - 1)` in `size_t` arithmetic. -/
def sdm_alloc_size (nsubmaps : Nat) : Nat :=
  (SIZEOF_SDM_T + SIZEOF_SM_PTR * (nsubmaps - 1)) % SIZE_MOD

/-- Number of `maps[]` slots that lie inside a block of `alloc_size` bytes
(the array starts after the three header words). -/
def sdm_block_slots (alloc_size : Nat) : Nat :=
  (alloc_size - (SIZEOF_SDM_T - SIZEOF_SM_PTR)) / SIZEOF_SM_PTR

/-- The block requested for `nsubmaps` shards has room for `nsubmaps` slots,
which is the case exactly when the computation of the size does not wrap. -/
def sdm_block_fits (nsubmaps : Nat) : Bool :=
  decide (nsubmaps ≤ sdm_block_slots (sdm_alloc_size nsubmaps))

/-- Macro `SDM_DEF_S_HASH_MAX_SIZE` (sdmap.c:18-20), default value 16. -/
def SDM_DEF_S_HASH_MAX_SIZE : Nat := 16

/-- Modelled from the spec: `SM_TotalTypes`, the number of enumerators of
`enum eSM_Type` (declared in `smap.h`, which is not among the sources).  The
spec lists eight key/value pairings. -/
def SM_TotalTypes : Nat := 8

/-! ## Data model -/

/-- A generic map object (`sm_t`), as far as `sdmap.c` looks into it: its
identity (address) and the type tag `d.sub_type`.  The tree it holds belongs
to `smap.c`. -/
structure sm_t where
  addr : Nat
  sub_type : Nat
deriving DecidableEq, Repr

/-- A string object (`ss_t`): its bytes. -/
abbrev ss_t := List Nat

/-- Code a non-null integer router pointer can point to. -/
inductive i_hash_fn where
  | sdm_default_i_hash : i_hash_fn
  | user (id : Nat) : i_hash_fn
deriving DecidableEq, Repr

/-- Code a non-null string router pointer can point to. -/
inductive s_hash_fn where
  | sdm_default_s_hash : s_hash_fn
  | user (id : Nat) : s_hash_fn
deriving DecidableEq, Repr

/-- Function pointer type `sdm_i_hash_t`; `none` is `NULL`. -/
abbrev sdm_i_hash_t := Option i_hash_fn

/-- Function pointer type `sdm_s_hash_t`; `none` is `NULL`. -/
abbrev sdm_s_hash_t := Option s_hash_fn

/-- The sharded map `struct S_DMap` (`sdm_t`): shard count, the two router
pointers and the array of submap pointers (`maps[]`, one slot per entry). -/
structure sdm_t where
  nmaps : Nat
  ih : sdm_i_hash_t
  sh : sdm_s_hash_t
  maps : List (Option sm_t)
deriving DecidableEq, Repr

/-- Contents of a block just returned by `__sd_malloc`: nothing has been
written yet, so every field holds whatever the allocator left there. -/
structure raw_block where
  nmaps : Nat
  ih : sdm_i_hash_t
  sh : sdm_s_hash_t
  slot : Nat → Option sm_t

/-- Effects of `sdmap.c` on the rest of the program, in program order. -/
inductive Event where
  | sd_malloc (nslots : Nat) : Event
  | memset_zero : Event
  | sm_alloc (t : Nat) (nelems : Nat) : Event
  | free_map (m : sm_t) : Event
  | free_dm : Event
  | sm_dup (src : Option sm_t) : Event
  | sm_free (m : Option sm_t) : Event
  | sm_reset (m : Option sm_t) : Event
  | sm_shrink (m : Option sm_t) : Event
deriving DecidableEq, Repr

/-- Answers of everything `sdmap.c` calls but does not define.

* `sd_malloc n`: result of the call `__sd_malloc(alloc_size)` made for a
  container of `n` shards, where `alloc_size = sdm_alloc_size n`; `none` is
  allocation failure.  The block returned has `sdm_block_slots alloc_size`
  slots.
* `sm_alloc i t nelems`: result of the `i`-th `sm_alloc(t, nelems)` call.
* `sm_dup i m`: result of the `i`-th `sm_dup(m)` call.
* `sm_reset i m`: result of the `i`-th `sm_reset(m)` call.
* `sm_reset_tag i m`: the type tag the map `m` carries after the `i`-th
  `sm_reset(m)` call.
* `sm_shrink i m`: what the `i`-th `sm_shrink(&slot)` call leaves in a slot
  that held `m` (shrinking may move the map).
* `csum32 bytes`: the checksum `ss_csum32` computes over a byte sequence.
* `user_i_hash id`, `user_s_hash id`: the caller's router functions. -/
structure World where
  sd_malloc : Nat → Option raw_block
  sm_alloc : Nat → Nat → Nat → Option sm_t
  sm_dup : Nat → Option sm_t → Option sm_t
  sm_reset : Nat → Option sm_t → Bool
  sm_reset_tag : Nat → sm_t → Nat
  sm_shrink : Nat → Option sm_t → Option sm_t
  csum32 : List Nat → Nat
  user_i_hash : Nat → sdm_t → Int → Nat
  user_s_hash : Nat → sdm_t → Option ss_t → Nat

/-- The block `__sd_malloc` returned, seen as a `sdm_t` with `n` slots. -/
def raw_block.to_sdm (g : raw_block) (n : Nat) : sdm_t :=
  { nmaps := g.nmaps, ih := g.ih, sh := g.sh, maps := (List.range n).map g.slot }

/-- Read of `dm->maps[i]`.  (Reading past the allocated slots is undefined in
C; the model reads `NULL` there.) -/
def sdm_t.slot (dm : sdm_t) (i : Nat) : Option sm_t := dm.maps.getD i none

/-- Assignment `dm->maps[i] = v`.  (Writing past the allocated slots is
undefined in C; the model drops the write.) -/
def sdm_t.set_slot (dm : sdm_t) (i : Nat) (v : Option sm_t) : sdm_t :=
  { dm with maps := dm.maps.set i v }

/-! ## Accessors (sdmap.c:184-200) -/

/-- Accessor `sdm_size` (sdmap.c:184-188). -/
def sdm_size (dm : Option sdm_t) : Nat :=
  match dm with
  | some d => d.nmaps
  | none => 0

/-- Accessor `sdm_submaps` (sdmap.c:190-194). -/
def sdm_submaps (dm : Option sdm_t) : Option (List (Option sm_t)) :=
  match dm with
  | some d => some d.maps
  | none => none

/-- Accessor `sdm_submaps_r` (sdmap.c:196-200). -/
def sdm_submaps_r (dm : Option sdm_t) : Option (List (Option sm_t)) :=
  match dm with
  | some d => some d.maps
  | none => none

/-! ## Default routers (sdmap.c:35-54) -/

/-- Modelled from the spec: `ss_csum32(s, n)` (defined in `sstring.c`, which is
not among the sources) is a checksum "over at most the first `n` bytes" of the
string; the checksum function itself is the parameter `World.csum32`. -/
def ss_csum32 (W : World) (s : Option ss_t) (n : Nat) : Nat :=
  match s with
  | some b => W.csum32 (b.take n)
  | none => 0

/-- Default integer router `sdm_default_i_hash` (sdmap.c:35-39):
`dm ? (size_t)(k % dm->nmaps) : 0`.  `nmaps` is a `size_t`, so `k` is converted
to `size_t` before the remainder is taken.  `none`: division by zero. -/
def sdm_default_i_hash (dm : Option sdm_t) (k : Int) : Option Nat :=
  match dm with
  | some d => if d.nmaps = 0 then none else some (to_size_t k % d.nmaps)
  | none => some 0

/-- Default string router `sdm_default_s_hash` (sdmap.c:41-54):
`h = ss_csum32(k, 16)` as an `unsigned`, then
`dm && k ? ((h / 2 + h) % dm->nmaps) : 0`, the sum `h / 2 + h` being computed
in `unsigned` arithmetic.  `none`: division by zero. -/
def sdm_default_s_hash (W : World) (dm : Option sdm_t) (k : Option ss_t) : Option Nat :=
  let h := ss_csum32 W k SDM_DEF_S_HASH_MAX_SIZE % UINT_MOD
  match dm, k with
  | some d, some _ => if d.nmaps = 0 then none else some (((h / 2 + h) % UINT_MOD) % d.nmaps)
  | _, _ => some 0

/-! ## Routing (sdmap.c:160-178) -/

/-- Call `f(dm, k)` through an integer router pointer.  `none`: undefined
behaviour (call through `NULL`, or division by zero in the default). -/
def call_i_hash (W : World) (f : sdm_i_hash_t) (dm : sdm_t) (k : Int) : Option Nat :=
  match f with
  | none => none
  | some i_hash_fn.sdm_default_i_hash => sdm_default_i_hash (some dm) k
  | some (i_hash_fn.user id) => some (W.user_i_hash id dm k)

/-- Call `f(dm, k)` through a string router pointer. -/
def call_s_hash (W : World) (f : sdm_s_hash_t) (dm : sdm_t) (k : Option ss_t) : Option Nat :=
  match f with
  | none => none
  | some s_hash_fn.sdm_default_s_hash => sdm_default_s_hash W (some dm) k
  | some (s_hash_fn.user id) => some (W.user_s_hash id dm k)

/-- Setter `sdm_set_routing` (sdmap.c:160-166); returns the updated object. -/
def sdm_set_routing (dm : Option sdm_t) (irf : sdm_i_hash_t) (srf : sdm_s_hash_t) :
    Option sdm_t :=
  match dm with
  | some d =>
    some { d with
      ih := match irf with
        | some f => some f
        | none => some i_hash_fn.sdm_default_i_hash
      sh := match srf with
        | some f => some f
        | none => some s_hash_fn.sdm_default_s_hash }
  | none => none

/-- Router `sdm_i_route` (sdmap.c:168-172): `dm ? dm->ih(dm, k) : 0`. -/
def sdm_i_route (W : World) (dm : Option sdm_t) (k : Int) : Option Nat :=
  match dm with
  | some d => call_i_hash W d.ih d k
  | none => some 0

/-- Router `sdm_s_route` (sdmap.c:174-178): `dm ? dm->sh(dm, k) : 0`. -/
def sdm_s_route (W : World) (dm : Option sdm_t) (k : Option ss_t) : Option Nat :=
  match dm with
  | some d => call_s_hash W d.sh d k
  | none => some 0

/-! ## Allocation (sdmap.c:60-88) -/

/-- Allocation loop of `sdm_alloc` (sdmap.c:69-72), `rem = nsubmaps - i`
iterations left: `dm->maps[i] = sm_alloc(t, nelems)`, leaving the loop when the
result is `NULL`.  Returns the final `i`, the container and the trace. -/
def sdm_alloc_loop (W : World) (t nelems : Nat) :
    Nat → Nat → sdm_t → Nat × sdm_t × List Event
  | 0, i, dm => (i, dm, [])
  | rem + 1, i, dm =>
    match W.sm_alloc i t nelems with
    | none => (i, dm.set_slot i none, [Event.sm_alloc t nelems])
    | some m =>
      let r := sdm_alloc_loop W t nelems rem (i + 1) (dm.set_slot i (some m))
      (r.1, r.2.1, Event.sm_alloc t nelems :: r.2.2)

/-- Error path of `sdm_alloc` (sdmap.c:74-79), from index `i` with
`rem = nsubmaps - i` iterations left: `free(dm->maps[i])` while the slot is
non-null. -/
def sdm_alloc_rollback : Nat → Nat → sdm_t → List Event
  | 0, _, _ => []
  | rem + 1, i, dm =>
    match dm.slot i with
    | some m => Event.free_map m :: sdm_alloc_rollback rem (i + 1) dm
    | none => []

/-- Number of elements requested per submap (sdmap.c:68):
`(initial_reserve / nsubmaps) + 1` in `size_t` arithmetic. -/
def sdm_alloc_nelems (nsubmaps initial_reserve : Nat) : Nat :=
  (initial_reserve / nsubmaps + 1) % SIZE_MOD

/-- Constructor `sdm_alloc` (sdmap.c:60-88).  The block obtained for
`alloc_size = sdm_alloc_size nsubmaps` bytes is cleared and has
`sdm_block_slots alloc_size` slots, fewer than `nsubmaps` when the size
computation wraps; when the loop has then written all `nsubmaps` slots, some
of them past the block, the behaviour is undefined and no object is
returned. -/
def sdm_alloc (W : World) (t nsubmaps initial_reserve : Nat) : Option sdm_t × List Event :=
  if nsubmaps < 1 then (none, [])
  else
    let alloc_size := sdm_alloc_size nsubmaps
    match W.sd_malloc nsubmaps with
    | none => (none, [Event.sd_malloc nsubmaps])
    | some _ =>
      let dm0 : sdm_t :=
        { nmaps := 0, ih := none, sh := none,
          maps := List.replicate (sdm_block_slots alloc_size) none }
      let nelems := sdm_alloc_nelems nsubmaps initial_reserve
      let r := sdm_alloc_loop W t nelems nsubmaps 0 dm0
      if r.1 ≠ nsubmaps then
        (none, [Event.sd_malloc nsubmaps, Event.memset_zero] ++ r.2.2
          ++ sdm_alloc_rollback nsubmaps 0 r.2.1 ++ [Event.free_dm])
      else if sdm_block_fits nsubmaps = false then
        (none, [Event.sd_malloc nsubmaps, Event.memset_zero] ++ r.2.2)
      else
        match sdm_set_routing (some r.2.1) none none with
        | some d =>
          (some { d with nmaps := nsubmaps },
            [Event.sd_malloc nsubmaps, Event.memset_zero] ++ r.2.2)
        | none => (none, [Event.sd_malloc nsubmaps, Event.memset_zero] ++ r.2.2)

/-! ## Duplication (sdmap.c:118-147) -/

/-- Copy loop of `sdm_dup` (sdmap.c:132-135), `rem = nsubmaps - i` iterations
left: `dm->maps[i] = sm_dup(maps[i])`, leaving the loop when the result is
`NULL`. -/
def sdm_dup_loop (W : World) (maps : List (Option sm_t)) :
    Nat → Nat → sdm_t → Nat × sdm_t × List Event
  | 0, i, dm => (i, dm, [])
  | rem + 1, i, dm =>
    match W.sm_dup i (maps.getD i none) with
    | none => (i, dm.set_slot i none, [Event.sm_dup (maps.getD i none)])
    | some m =>
      let r := sdm_dup_loop W maps rem (i + 1) (dm.set_slot i (some m))
      (r.1, r.2.1, Event.sm_dup (maps.getD i none) :: r.2.2)

/-- Error path of `sdm_dup` (sdmap.c:137-142), from index `i` with
`rem = nsubmaps - i` iterations left: `sm_free(&dm->maps[i])` (which also
clears the slot) while the slot is non-null. -/
def sdm_dup_rollback : Nat → Nat → sdm_t → List Event
  | 0, _, _ => []
  | rem + 1, i, dm =>
    match dm.slot i with
    | some m => Event.sm_free (some m) :: sdm_dup_rollback rem (i + 1) (dm.set_slot i none)
    | none => []

/-- Copy constructor `sdm_dup` (sdmap.c:118-147).  The error path continues
from the value `i` has when the copy loop is left (sdmap.c:137: `for (; i <
nsubmaps; i++)`).  The block obtained for `sdm_alloc_size nsubmaps` bytes is
not cleared and has `sdm_block_slots` slots; as in `sdm_alloc`, no object is
returned when the loop has written all `nsubmaps` slots and some of them lie
past the block. -/
def sdm_dup (W : World) (src : Option sdm_t) : Option sdm_t × List Event :=
  match src with
  | none => (none, [])
  | some _ =>
    let nsubmaps := sdm_size src
    if nsubmaps = 0 then (none, [])
    else
      match sdm_submaps_r src with
      | none => (none, [])
      | some maps =>
        match maps.getD 0 none with
        | none => (none, [])
        | some m0 =>
          let t := m0.sub_type
          if t ≥ SM_TotalTypes then (none, [])
          else
            match W.sd_malloc nsubmaps with
            | none => (none, [Event.sd_malloc nsubmaps])
            | some g =>
              let alloc_size := sdm_alloc_size nsubmaps
              let r := sdm_dup_loop W maps nsubmaps 0
                (g.to_sdm (sdm_block_slots alloc_size))
              if r.1 ≠ nsubmaps then
                (none, [Event.sd_malloc nsubmaps] ++ r.2.2
                  ++ sdm_dup_rollback (nsubmaps - r.1) r.1 r.2.1 ++ [Event.free_dm])
              else if sdm_block_fits nsubmaps = false then
                (none, [Event.sd_malloc nsubmaps] ++ r.2.2)
              else
                (some r.2.1, [Event.sd_malloc nsubmaps] ++ r.2.2)

/-! ## Reset (sdmap.c:149-154) -/

/-- Loop of `SDM_FUN_DMAP` (sdmap.c:22-27) as instantiated by `sdm_reset`:
`for (; i < n; i++) res_ok &= sm_reset(dm->maps[i]);`, `rem = n - i`. -/
def sdm_reset_loop (W : World) (dm : sdm_t) : Nat → Nat → Bool → Bool × List Event
  | 0, _, res_ok => (res_ok, [])
  | rem + 1, i, res_ok =>
    let r := sdm_reset_loop W dm rem (i + 1) (res_ok && W.sm_reset i (dm.slot i))
    (r.1, Event.sm_reset (dm.slot i) :: r.2)

/-- Bulk reset `sdm_reset` (sdmap.c:149-154). -/
def sdm_reset (W : World) (dm : Option sdm_t) : Bool × List Event :=
  match dm with
  | some d => sdm_reset_loop W d (sdm_size dm) 0 true
  | none => (true, [])

/-! ## Handles -/

/-- The caller's handle variables (`sdm_t *`), by address.  A handle reference
(`sdm_t **`) is an `Option Nat`: `none` is a `NULL` reference, `some a` points
to handle `a`.  Each handle owns the container it points to. -/
abbrev handles := List (Option sdm_t)

/-- Read `*dm` through a non-null handle reference.  (A reference to no handle
of the store reads `NULL`.) -/
def deref (hs : handles) (a : Nat) : Option sdm_t := hs.getD a none

/-! ## Shrink (sdmap.c:113-116) -/

/-- Loop of `SDM_FUN_DMAP` (sdmap.c:22-27) as instantiated by `sdm_shrink`:
`for (; i < n; i++) sm_shrink(&(*dm)->maps[i]);`, `rem = n - i`. -/
def sdm_shrink_loop (W : World) : Nat → Nat → sdm_t → sdm_t × List Event
  | 0, _, d => (d, [])
  | rem + 1, i, d =>
    let r := sdm_shrink_loop W rem (i + 1) (d.set_slot i (W.sm_shrink i (d.slot i)))
    (r.1, Event.sm_shrink (d.slot i) :: r.2)

/-- Bulk shrink `sdm_shrink` (sdmap.c:113-116): `SDM_FUN_PPDMAP(dm, sm_shrink)`,
guarded by `dm && *dm`. -/
def sdm_shrink (W : World) (hs : handles) (dm : Option Nat) : handles × List Event :=
  match dm with
  | none => (hs, [])
  | some a =>
    match deref hs a with
    | none => (hs, [])
    | some d =>
      let r := sdm_shrink_loop W (sdm_size (some d)) 0 d
      (hs.set a (some r.1), r.2)

/-! ## Free (sdmap.c:90-111) -/

/-- Loop of `SDM_FUN_DMAP` (sdmap.c:22-27) as instantiated by `sdm_free_aux1`:
`for (; i < n; i++) sm_free(&(*dm)->maps[i]);`, `rem = n - i`; `sm_free`
releases the map and clears the slot. -/
def sdm_free_loop : Nat → Nat → sdm_t → sdm_t × List Event
  | 0, _, d => (d, [])
  | rem + 1, i, d =>
    let r := sdm_free_loop rem (i + 1) (d.set_slot i none)
    (r.1, Event.sm_free (d.slot i) :: r.2)

/-- Single-handle free `sdm_free_aux1` (sdmap.c:90-97): when `dm && *dm`, free
every submap, `free(*dm)`, `*dm = NULL`. -/
def sdm_free_aux1 (hs : handles) (dm : Option Nat) : handles × List Event :=
  match dm with
  | none => (hs, [])
  | some a =>
    match deref hs a with
    | none => (hs, [])
    | some d =>
      let r := sdm_free_loop (sdm_size (some d)) 0 d
      (hs.set a none, r.2 ++ [Event.free_dm])

/-- Loop over the variadic arguments of `sdm_free_aux` (sdmap.c:107-108),
`rem = nargs - i`: `sdm_free_aux1(va_arg(ap, sdm_t **))`.  (Reading more
arguments than were passed is undefined in C; the model reads `NULL`.) -/
def sdm_free_aux_va : Nat → handles → List (Option Nat) → handles × List Event
  | 0, hs, _ => (hs, [])
  | rem + 1, hs, ap =>
    let r1 := sdm_free_aux1 hs (ap.headD none)
    let r2 := sdm_free_aux_va rem r1.1 ap.tail
    (r2.1, r1.2 ++ r2.2)

/-- Variadic free `sdm_free_aux` (sdmap.c:99-111): `dm` is the first handle
reference, `ap` the further ones.  The macro `sdm_free(a, b, ...)` of `sdmap.h`
(not among the sources) passes the number of its arguments as `nargs`. -/
def sdm_free_aux (nargs : Nat) (hs : handles) (dm : Option Nat) (ap : List (Option Nat)) :
    handles × List Event :=
  let r1 := match dm with
    | some _ => sdm_free_aux1 hs dm
    | none => (hs, [])
  if nargs > 1 then
    let r2 := sdm_free_aux_va (nargs - 1) r1.1 ap
    (r2.1, r1.2 ++ r2.2)
  else r1

/-- Sequential application of `sdm_free_aux1` to a list of handle references
(what `sdm_free_aux` amounts to when `nargs` is the number of references). -/
def free_each : handles → List (Option Nat) → handles × List Event
  | hs, [] => (hs, [])
  | hs, r :: rs =>
    let r1 := sdm_free_aux1 hs r
    let r2 := free_each r1.1 rs
    (r2.1, r1.2 ++ r2.2)

/-! ## The type tag invariant -/

/-- A slot holds a map whose type tag is `t`. -/
def slot_tagged (t : Nat) (s : Option sm_t) : Bool :=
  match s with
  | some m => decide (m.sub_type = t)
  | none => false

/-- Every submap of the container, that is every slot `0 .. sdm_size - 1`,
holds a map, and all these maps carry the type tag `t`. -/
def all_tagged (dm : sdm_t) (t : Nat) : Bool :=
  (List.range dm.nmaps).all (fun i => slot_tagged t (dm.slot i))

/-- All submaps `0 .. sdm_size - 1` of the container carry one and the same
type tag (with at least one shard: the tag of the map in slot 0). -/
def same_type_tag (dm : sdm_t) : Bool :=
  match dm.slot 0 with
  | some m => all_tagged dm m.sub_type
  | none => decide (dm.nmaps = 0)

/-! ## The submaps after a reset -/

/-- A submap after the `i`-th `sm_reset` call: the same object, carrying the
tag `sm_reset` left it with. -/
def sm_after_reset (W : World) (i : Nat) (s : Option sm_t) : Option sm_t :=
  match s with
  | some m => some { m with sub_type := W.sm_reset_tag i m }
  | none => none

/-- The submaps of the container as the loop of `sdm_reset` (sdmap.c:22-27,
`rem = n - i`) leaves them: submap `i` has gone through the `i`-th `sm_reset`
call. -/
def sdm_reset_after_loop (W : World) : Nat → Nat → sdm_t → sdm_t
  | 0, _, d => d
  | rem + 1, i, d =>
    sdm_reset_after_loop W rem (i + 1) (d.set_slot i (sm_after_reset W i (d.slot i)))

/-- The sharded map as seen after `sdm_reset` (sdmap.c:149-154): `sdm_reset`
writes nothing into the container, and every submap `0 .. sdm_size - 1` has
gone through `sm_reset`.  (`sdm_reset` itself gives the result and the calls.) -/
def sdm_reset_after (W : World) (dm : Option sdm_t) : Option sdm_t :=
  match dm with
  | some d => some (sdm_reset_after_loop W (sdm_size dm) 0 d)
  | none => none

/-! ## The common shape of the two filling loops -/

/-- The loop shared by `sdm_alloc` and `sdm_dup`: `dm->maps[i] = f(i)` for
ascending `i`, leaving the loop at the first `NULL` result; `ev i` is the
effect of call `i`. -/
def fill_loop (f : Nat → Option sm_t) (ev : Nat → Event) :
    Nat → Nat → sdm_t → Nat × sdm_t × List Event
  | 0, i, dm => (i, dm, [])
  | rem + 1, i, dm =>
    match f i with
    | none => (i, dm.set_slot i none, [ev i])
    | some m =>
      let r := fill_loop f ev rem (i + 1) (dm.set_slot i (some m))
      (r.1, r.2.1, ev i :: r.2.2)

/-! ## Worlds used to evaluate the code on concrete inputs -/

/-- A zero-filled block. -/
def zero_block : raw_block := { nmaps := 0, ih := none, sh := none, slot := fun _ => none }

/-- A world in which every allocation and copy succeeds: the `i`-th map
allocated sits at address `100 + i`, the copy of a map sits `1000` above it,
resets succeed, shrinking moves a map `5000` up, the checksum is the byte sum. -/
def W_ok : World :=
  { sd_malloc := fun _ => some zero_block
    sm_alloc := fun i t _ => some { addr := 100 + i, sub_type := t }
    sm_dup := fun _ m => m.map (fun x => { x with addr := x.addr + 1000 })
    sm_reset := fun _ m => m.isSome
    sm_reset_tag := fun _ m => m.sub_type
    sm_shrink := fun _ m => m.map (fun x => { x with addr := x.addr + 5000 })
    csum32 := fun b => b.sum
    user_i_hash := fun id _ k => to_size_t (k + id)
    user_s_hash := fun id _ _ => id }

/-- The sharded map `sdm_alloc` builds in `W_ok` for three shards of type 2. -/
def dm_three : sdm_t :=
  { nmaps := 3, ih := some i_hash_fn.sdm_default_i_hash,
    sh := some s_hash_fn.sdm_default_s_hash,
    maps := [some ⟨100, 2⟩, some ⟨101, 2⟩, some ⟨102, 2⟩] }

/-- The object `sdm_dup` returns for `dm_three` in `W_ok`. -/
def dup_three : sdm_t :=
  { nmaps := 0, ih := none, sh := none,
    maps := [some ⟨1100, 2⟩, some ⟨1101, 2⟩, some ⟨1102, 2⟩] }

/-- As `W_ok`, but the `sm_alloc` and `sm_dup` calls number `i` and later fail,
and `sm_reset` number `i` fails. -/
def W_fail_at (i : Nat) : World :=
  { W_ok with
    sm_alloc := fun j t _ => if j < i then some { addr := 100 + j, sub_type := t } else none
    sm_dup := fun j m => if j < i then m.map (fun x => { x with addr := x.addr + 1000 }) else none
    sm_reset := fun j m => decide (j ≠ i) && m.isSome }

/-- A block whose `nmaps` word holds 7 when `__sd_malloc` returns it. -/
def garbage_block : raw_block := { nmaps := 7, ih := none, sh := none, slot := fun _ => none }

/-- As `W_ok`, but `__sd_malloc` returns blocks that are not zero-filled. -/
def W_garbage : World := { W_ok with sd_malloc := fun _ => some garbage_block }

/-- The object `sdm_dup` returns for `dm_three` in `W_garbage`. -/
def dup_seven : sdm_t :=
  { nmaps := 7, ih := none, sh := none,
    maps := [some ⟨1100, 2⟩, some ⟨1101, 2⟩, some ⟨1102, 2⟩] }

/-- As `W_ok`, with a checksum that is `2^32 - 1` on every input. -/
def W_csum_max : World := { W_ok with csum32 := fun _ => 4294967295 }

end Sdmap

/-! # libsrt: tree node constants (`stree.h`) -/

namespace Stree

/-- Macro `ST_NODE_BITS` (stree.h:25). -/
def ST_NODE_BITS : Nat := 31

/-- Macro `ST_NIL` (stree.h:26): `(((uint32_t)1) << ST_NODE_BITS) - 1`, in
`uint32_t` arithmetic. -/
def ST_NIL : Nat := (((1 <<< ST_NODE_BITS) % 2 ^ 32) + 2 ^ 32 - 1) % 2 ^ 32

/-- Node header `struct S_Node` (stree.h:33-40): the one-bit field `x.is_red`,
the `ST_NODE_BITS`-bit field `x.l` and the 32-bit index `r`. -/
structure stn_t where
  is_red : Nat
  l : Nat
  r : Nat
deriving DecidableEq, Repr

/-- Store of a value into the bit-fields and the index of a node: each member
keeps the low bits that fit its width. -/
def stn_init (is_red l r : Nat) : stn_t :=
  { is_red := is_red % 2 ^ 1, l := l % 2 ^ ST_NODE_BITS, r := r % 2 ^ 32 }

/-- Initialiser `EMPTY_STN` (stree.h:72): `{ { 0, ST_NIL }, ST_NIL }`. -/
def EMPTY_STN : stn_t := stn_init 0 ST_NIL ST_NIL

end Stree

/-! # libsrt: debug rendering of map nodes (`sdbg.c`) -/

namespace Sdbg

open Stree

/-- A map node as `aux_sm_log_traverse` reads it: the node types of `smap.h`
(not among the sources), one per `enum eSM_Type` value, named after the struct
the code casts the node to.  String keys and string or reference values are
pointers, given by their address. -/
inductive sm_node where
  | SMapii (k v : Int) : sm_node
  | SMapuu (k v : Nat) : sm_node
  | SMapII (k v : Int) : sm_node
  | SMapIS (k : Int) (v : Nat) : sm_node
  | SMapIP (k : Int) (v : Nat) : sm_node
  | SMapSI (k : Nat) (v : Int) : sm_node
  | SMapSS (k v : Nat) : sm_node
  | SMapSP (k v : Nat) : sm_node
deriving DecidableEq, Repr

/-- The type tag `d.sub_type` of the map a node belongs to. -/
inductive eSM_Type where
  | SM_I32I32 | SM_U32U32 | SM_IntInt | SM_IntStr | SM_IntPtr | SM_StrInt | SM_StrStr | SM_StrPtr
deriving DecidableEq, Repr

/-- Type tag of the map holding a node of a given layout. -/
def sm_node.sub_type : sm_node → eSM_Type
  | sm_node.SMapii _ _ => eSM_Type.SM_I32I32
  | sm_node.SMapuu _ _ => eSM_Type.SM_U32U32
  | sm_node.SMapII _ _ => eSM_Type.SM_IntInt
  | sm_node.SMapIS _ _ => eSM_Type.SM_IntStr
  | sm_node.SMapIP _ _ => eSM_Type.SM_IntPtr
  | sm_node.SMapSI _ _ => eSM_Type.SM_StrInt
  | sm_node.SMapSS _ _ => eSM_Type.SM_StrStr
  | sm_node.SMapSP _ _ => eSM_Type.SM_StrPtr

/-- Text of the node's key as the format of its type prints it: decimal for
integer keys, the pointer conversion `fmt_p` for string keys. -/
def key_text (fmt_p : Nat → String) : sm_node → String
  | sm_node.SMapii k _ => toString k
  | sm_node.SMapuu k _ => toString k
  | sm_node.SMapII k _ => toString k
  | sm_node.SMapIS k _ => toString k
  | sm_node.SMapIP k _ => toString k
  | sm_node.SMapSI k _ => fmt_p k
  | sm_node.SMapSS k _ => fmt_p k
  | sm_node.SMapSP k _ => fmt_p k

/-- Text of the node's value as the format of its type prints it: decimal for
integer values, the pointer conversion `fmt_p` for strings and references. -/
def value_text (fmt_p : Nat → String) : sm_node → String
  | sm_node.SMapii _ v => toString v
  | sm_node.SMapuu _ v => toString v
  | sm_node.SMapII _ v => toString v
  | sm_node.SMapIS _ v => fmt_p v
  | sm_node.SMapIP _ v => fmt_p v
  | sm_node.SMapSI _ v => toString v
  | sm_node.SMapSS _ v => fmt_p v
  | sm_node.SMapSP _ v => fmt_p v

/-- The fields of `struct STraverseParams` (stree.h:52-60) the callback reads:
the index `c` of the current node, the node `cn` (`none`: level boundary), its
header, and the level. -/
structure STraverseParams where
  c : Nat
  cn : Option (stn_t × sm_node)
  level : Nat

/-- Index to text, `ndx2s` (sdbg.c:83-89): `nil` for `ST_NIL`, else `%u`. -/
def ndx2s (id : Nat) : String :=
  if id = ST_NIL then "nil" else toString (id % 2 ^ 32)

/-- First `switch` of `aux_sm_log_traverse` (sdbg.c:99-122) on the buffers
`(k, v)`; `fmt_p` is the `%p` conversion of the C library. -/
def log_switch_1 (fmt_p : Nat → String) (n : sm_node) (kv : String × String) :
    String × String :=
  match n with
  | sm_node.SMapii k v => (toString k, toString v)
  | sm_node.SMapuu k v => (toString k, toString v)
  | sm_node.SMapII k _ => (toString k, kv.2)
  | sm_node.SMapIS k _ => (toString k, kv.2)
  | sm_node.SMapIP k _ => (toString k, kv.2)
  | sm_node.SMapSI k _ => (fmt_p k, kv.2)
  | sm_node.SMapSS k _ => (fmt_p k, kv.2)
  | sm_node.SMapSP k _ => (fmt_p k, kv.2)

/-- Second `switch` of `aux_sm_log_traverse` (sdbg.c:123-146) on the buffers
`(k, v)`: the cases `SM_IntInt` and `SM_StrInt` print into `v`, the cases
`SM_IntStr`, `SM_IntPtr`, `SM_StrStr` and `SM_StrPtr` print into `k`. -/
def log_switch_2 (fmt_p : Nat → String) (n : sm_node) (kv : String × String) :
    String × String :=
  match n with
  | sm_node.SMapII _ v => (kv.1, toString v)
  | sm_node.SMapSI _ v => (kv.1, toString v)
  | sm_node.SMapIS _ v => (fmt_p v, kv.2)
  | sm_node.SMapIP _ v => (fmt_p v, kv.2)
  | sm_node.SMapSS _ v => (fmt_p v, kv.2)
  | sm_node.SMapSP _ v => (fmt_p v, kv.2)
  | sm_node.SMapii _ _ => kv
  | sm_node.SMapuu _ _ => kv

/-- The contents of the buffers `k` and `v` when the entry is printed
(sdbg.c:98-146): both start empty and go through the two switches. -/
def log_kv (fmt_p : Nat → String) (n : sm_node) : String × String :=
  log_switch_2 fmt_p n (log_switch_1 fmt_p n ("", ""))

/-- Text `aux_sm_log_traverse` (sdbg.c:91-154) appends to the log through
`ss_cat_printf`: the level line at a level boundary, else the entry
`[%s: (%s, %s) -> (%s, %s; r:%u)] `.  (The length limit 128 passed to
`ss_cat_printf` is not modelled.) -/
def aux_sm_log_traverse (fmt_p : Nat → String) (tp : STraverseParams) : String :=
  match tp.cn with
  | none => "\nLevel: " ++ toString (tp.level % 2 ^ 32) ++ "\n"
  | some (hdr, n) =>
    "[" ++ ndx2s tp.c ++ ": (" ++ (log_kv fmt_p n).1 ++ ", " ++ (log_kv fmt_p n).2
      ++ ") -> (" ++ ndx2s hdr.l ++ ", " ++ ndx2s hdr.r ++ "; r:" ++ toString hdr.is_red ++ ")] "

/-- The rendering `[id: (K, V) -> (left, right; r:color)]` of an entry with key
text `K` and value text `V`, followed by the separating blank. -/
def entry_text (id K V left right color : String) : String :=
  "[" ++ id ++ ": (" ++ K ++ ", " ++ V ++ ") -> (" ++ left ++ ", " ++ right ++ "; r:" ++ color
    ++ ")] "

/-- A `%p` conversion used to evaluate the code: `0x` and the decimal digits of
the address. -/
def fmt_p_dec (a : Nat) : String := "0x" ++ toString a

end Sdbg

namespace Sdmap

/-! ## Slots -/

theorem slot_set_slot_ne (dm : sdm_t) (i j : Nat) (v : Option sm_t) (h : j ≠ i) :
    (dm.set_slot i v).slot j = dm.slot j := by
  simp [sdm_t.slot, sdm_t.set_slot, List.getD_eq_getElem?_getD, List.getElem?_set, Ne.symm h]

theorem slot_set_slot_eq (dm : sdm_t) (i : Nat) (v : Option sm_t) (h : i < dm.maps.length) :
    (dm.set_slot i v).slot i = v := by
  simp [sdm_t.slot, sdm_t.set_slot, List.getD_eq_getElem?_getD, List.getElem?_set, h]

theorem slot_set_slot_none (dm : sdm_t) (i : Nat) :
    (dm.set_slot i none).slot i = none := by
  by_cases h : i < dm.maps.length
  · exact slot_set_slot_eq dm i none h
  · simp [sdm_t.slot, sdm_t.set_slot, List.getD_eq_getElem?_getD, List.getElem?_set, h]

theorem length_set_slot (dm : sdm_t) (i : Nat) (v : Option sm_t) :
    (dm.set_slot i v).maps.length = dm.maps.length := by
  simp [sdm_t.set_slot]

/-! ## The filling loop -/

theorem sdm_alloc_loop_eq_fill (W : World) (t nelems : Nat) (rem i : Nat) (dm : sdm_t) :
    sdm_alloc_loop W t nelems rem i dm
      = fill_loop (fun j => W.sm_alloc j t nelems) (fun _ => Event.sm_alloc t nelems) rem i dm := by
  induction rem generalizing i dm with
  | zero => rfl
  | succ rem ih =>
    simp only [sdm_alloc_loop, fill_loop]
    cases W.sm_alloc i t nelems with
    | none => rfl
    | some m => simp only [ih]

theorem sdm_dup_loop_eq_fill (W : World) (maps : List (Option sm_t)) (rem i : Nat) (dm : sdm_t) :
    sdm_dup_loop W maps rem i dm
      = fill_loop (fun j => W.sm_dup j (maps.getD j none))
          (fun j => Event.sm_dup (maps.getD j none)) rem i dm := by
  induction rem generalizing i dm with
  | zero => rfl
  | succ rem ih =>
    simp only [sdm_dup_loop, fill_loop]
    cases W.sm_dup i (maps.getD i none) with
    | none => rfl
    | some m => simp only [ih]

/-- Summary of the filling loop: the index it stops at is the first failing
call (or the end), the header fields and the number of slots are untouched,
the slots passed that lie inside the block hold the results of the calls, the
slot of the failing call reads `NULL`, and exactly the calls up to the
stopping index were made. -/
theorem fill_loop_spec (f : Nat → Option sm_t) (ev : Nat → Event) (rem i : Nat) (dm : sdm_t) :
    i ≤ (fill_loop f ev rem i dm).1 ∧ (fill_loop f ev rem i dm).1 ≤ i + rem
    ∧ (fill_loop f ev rem i dm).2.1.nmaps = dm.nmaps
    ∧ (fill_loop f ev rem i dm).2.1.ih = dm.ih
    ∧ (fill_loop f ev rem i dm).2.1.sh = dm.sh
    ∧ (fill_loop f ev rem i dm).2.1.maps.length = dm.maps.length
    ∧ (∀ j, i ≤ j → j < (fill_loop f ev rem i dm).1 →
        (f j).isSome = true
        ∧ (j < dm.maps.length → (fill_loop f ev rem i dm).2.1.slot j = f j))
    ∧ ((fill_loop f ev rem i dm).1 < i + rem →
        f (fill_loop f ev rem i dm).1 = none
        ∧ (fill_loop f ev rem i dm).2.1.slot (fill_loop f ev rem i dm).1 = none)
    ∧ (∀ j, j < i → (fill_loop f ev rem i dm).2.1.slot j = dm.slot j)
    ∧ (fill_loop f ev rem i dm).2.2
        = (List.range' i (min ((fill_loop f ev rem i dm).1 + 1 - i) rem)).map ev := by
  induction rem generalizing i dm with
  | zero =>
    simp only [fill_loop]
    refine ⟨le_refl _, by simp, trivial, trivial, trivial, trivial, ?_, ?_, ?_, ?_⟩
    · intro j h1 h2; omega
    · intro h; simp at h
    · intro j _; trivial
    · simp
  | succ rem ih =>
    simp only [fill_loop]
    cases hf : f i with
    | none =>
      refine ⟨le_refl _, by simp, rfl, rfl, rfl, length_set_slot _ _ _, ?_, ?_, ?_, ?_⟩
      · intro j h1 h2; simp at h2; omega
      · intro _; exact ⟨hf, slot_set_slot_none dm i⟩
      · intro j hj; exact slot_set_slot_ne dm i j none (by omega)
      · simp [List.range']
    | some m =>
      obtain ⟨h1, h2, h3, h4, h5, h6, h7, h8, h9, h10⟩ := ih (i + 1) (dm.set_slot i (some m))
      refine ⟨by simp only; omega, by simp only; omega, h3, h4, h5, ?_, ?_, ?_, ?_, ?_⟩
      · simp only; rw [h6, length_set_slot]
      · intro j hj1 hj2
        simp only at hj2 ⊢
        by_cases hji : j = i
        · subst hji
          refine ⟨by rw [hf]; rfl, ?_⟩
          intro hlen
          rw [h9 j (by omega), slot_set_slot_eq dm j (some m) hlen, hf]
        · obtain ⟨ha, hb⟩ := h7 j (by omega) hj2
          refine ⟨ha, ?_⟩
          intro hlen
          exact hb (by rw [length_set_slot]; exact hlen)
      · intro hlt
        simp only at hlt ⊢
        exact h8 (by omega)
      · intro j hj
        simp only
        rw [h9 j (by omega)]
        exact slot_set_slot_ne dm i j (some m) (by omega)
      · simp only
        rw [h10]
        have : min ((fill_loop f ev rem (i + 1) (dm.set_slot i (some m))).1 + 1 - i) (rem + 1)
            = min ((fill_loop f ev rem (i + 1) (dm.set_slot i (some m))).1 + 1 - (i + 1)) rem + 1 := by
          omega
        rw [this, List.range'_succ, List.map_cons]

/-! ## Allocation -/

/-- The block has room for the `N` slots exactly when the size computation
does not wrap, that is when `N ≤ 2^61 - 4`; it then has exactly `N` slots. -/
theorem sdm_block_fits_iff (N : Nat) (hN : 1 ≤ N) :
    (sdm_block_fits N = true ↔ N ≤ 2 ^ 61 - 4)
    ∧ (sdm_block_fits N = true → sdm_block_slots (sdm_alloc_size N) = N) := by
  unfold sdm_block_fits sdm_block_slots sdm_alloc_size SIZEOF_SDM_T SIZEOF_SM_PTR SIZE_MOD
  simp only [decide_eq_true_eq]
  norm_num
  constructor
  · constructor <;> intro h <;> omega
  · intro h; omega

/-- When the block is too small for the `N` slots, `sdm_alloc` returns no
object. -/
theorem sdm_alloc_overflow_none (W : World) (t N r : Nat) (h : sdm_block_fits N = false) :
    (sdm_alloc W t N r).1 = none := by
  unfold sdm_alloc
  by_cases hN : N < 1
  · simp [hN]
  · simp only [hN, if_false]
    cases hm : W.sd_malloc N with
    | none => rfl
    | some g =>
      simp only [h, if_true]
      split <;> rfl

/-- What `sdm_alloc` guarantees about a non-null result. -/
theorem sdm_alloc_result (W : World) (t N r : Nat) (dm : sdm_t)
    (h : (sdm_alloc W t N r).1 = some dm) :
    1 ≤ N ∧ dm.nmaps = N
    ∧ dm.ih = some i_hash_fn.sdm_default_i_hash
    ∧ dm.sh = some s_hash_fn.sdm_default_s_hash
    ∧ dm.maps.length = N
    ∧ ∀ j, j < N → (W.sm_alloc j t (sdm_alloc_nelems N r)).isSome = true
        ∧ dm.slot j = W.sm_alloc j t (sdm_alloc_nelems N r) := by
  by_cases hN : N < 1
  · simp [sdm_alloc, hN] at h
  have hfit : sdm_block_fits N = true := by
    by_contra hc
    have hc2 : sdm_block_fits N = false := by simpa using hc
    rw [sdm_alloc_overflow_none W t N r hc2] at h
    simp at h
  have hslots := (sdm_block_fits_iff N (by omega)).2 hfit
  unfold sdm_alloc at h
  simp only [hN, if_false, hfit, Bool.true_eq_false] at h
  cases hm : W.sd_malloc N with
  | none => simp [hm] at h
  | some g =>
    simp only [hm, sdm_alloc_loop_eq_fill, hslots] at h
    have hs := fill_loop_spec (fun j => W.sm_alloc j t (sdm_alloc_nelems N r))
      (fun _ => Event.sm_alloc t (sdm_alloc_nelems N r)) N 0
      { nmaps := 0, ih := none, sh := none, maps := List.replicate N none }
    obtain ⟨-, -, -, -, -, h6, h7, -, -, -⟩ := hs
    split at h
    · simp at h
    · rename_i hfull
      simp only [ne_eq, not_not] at hfull
      simp only [sdm_set_routing, Option.some.injEq] at h
      subst h
      refine ⟨by omega, rfl, rfl, rfl, ?_, ?_⟩
      · simpa using h6
      · intro j hj
        obtain ⟨ha, hb⟩ := h7 j (Nat.zero_le _) (by rw [hfull]; exact hj)
        exact ⟨ha, hb (by simpa using hj)⟩

/-- When every call succeeds the filling loop runs to the end. -/
theorem fill_loop_full (f : Nat → Option sm_t) (ev : Nat → Event) (N : Nat) (dm : sdm_t)
    (hok : ∀ j, j < N → (f j).isSome = true) :
    (fill_loop f ev N 0 dm).1 = N := by
  obtain ⟨-, h2, -, -, -, -, -, h8, -, -⟩ := fill_loop_spec f ev N 0 dm
  by_contra hne
  have hlt : (fill_loop f ev N 0 dm).1 < 0 + N := by omega
  have := (h8 hlt).1
  have := hok _ (by omega : (fill_loop f ev N 0 dm).1 < N)
  simp_all

/-- When calls `0 .. i-1` succeed and call `i < N` fails, the loop stops at `i`. -/
theorem fill_loop_stops (f : Nat → Option sm_t) (ev : Nat → Event) (N i : Nat) (dm : sdm_t)
    (hi : i < N)
    (hok : ∀ j, j < i → (f j).isSome = true) (hfail : f i = none) :
    (fill_loop f ev N 0 dm).1 = i := by
  obtain ⟨-, h2, -, -, -, -, h7, h8, -, -⟩ := fill_loop_spec f ev N 0 dm
  rcases Nat.lt_trichotomy (fill_loop f ev N 0 dm).1 i with hlt | heq | hgt
  · have h1 := (h8 (by omega)).1
    have h2 := hok _ hlt
    simp_all
  · exact heq
  · have := (h7 i (Nat.zero_le _) hgt).1
    simp_all

/-- The error path of `sdm_dup` does nothing when it starts at a `NULL` slot. -/
theorem sdm_dup_rollback_at_null (rem i : Nat) (dm : sdm_t) (h : dm.slot i = none) :
    sdm_dup_rollback rem i dm = [] := by
  cases rem with
  | zero => rfl
  | succ rem => simp [sdm_dup_rollback, h]

/-- Number of slots of a fresh block. -/
theorem to_sdm_length (g : raw_block) (N : Nat) : N ≤ (g.to_sdm N).maps.length := by
  simp [raw_block.to_sdm]

/-- When the block is too small for the slots of the source, `sdm_dup` returns
no object. -/
theorem sdm_dup_overflow_none (W : World) (src : sdm_t) (h : sdm_block_fits src.nmaps = false) :
    (sdm_dup W (some src)).1 = none := by
  unfold sdm_dup
  simp only [sdm_size, sdm_submaps_r, h, if_true]
  split
  · rfl
  · split
    · rfl
    · split
      · rfl
      · split
        · rfl
        · split <;> rfl

/-- What `sdm_dup` guarantees about a non-null result: the slots hold the
copies, and the header fields (`nmaps`, `ih`, `sh`) are those of the block as
`__sd_malloc` returned it, since `sdm_dup` writes none of them. -/
theorem sdm_dup_result (W : World) (src : sdm_t) (g : raw_block) (dup : sdm_t)
    (hmalloc : W.sd_malloc src.nmaps = some g)
    (h : (sdm_dup W (some src)).1 = some dup) :
    dup.nmaps = g.nmaps ∧ dup.ih = g.ih ∧ dup.sh = g.sh
    ∧ dup.maps.length = src.nmaps
    ∧ ∀ j, j < src.nmaps → (W.sm_dup j (src.slot j)).isSome = true
        ∧ dup.slot j = W.sm_dup j (src.slot j) := by
  have hfit : sdm_block_fits src.nmaps = true := by
    by_contra hc
    have hc2 : sdm_block_fits src.nmaps = false := by simpa using hc
    rw [sdm_dup_overflow_none W src hc2] at h
    simp at h
  unfold sdm_dup at h
  simp only [sdm_size, sdm_submaps_r, hfit, Bool.true_eq_false, if_false] at h
  split at h
  · simp at h
  · rename_i hN
    have hslots := (sdm_block_fits_iff src.nmaps (by omega)).2 hfit
    split at h
    · simp at h
    · split at h
      · simp at h
      · rw [hmalloc] at h
        simp only [sdm_dup_loop_eq_fill, hslots] at h
        obtain ⟨-, -, h3, h4, h5, h6, h7, -, -, -⟩ :=
          fill_loop_spec (fun j => W.sm_dup j (src.maps.getD j none))
            (fun j => Event.sm_dup (src.maps.getD j none)) src.nmaps 0 (g.to_sdm src.nmaps)
        split at h
        · simp at h
        · rename_i hfull
          simp only [ne_eq, not_not] at hfull
          simp only [Option.some.injEq] at h
          subst h
          refine ⟨h3, h4, h5, ?_, ?_⟩
          · rw [h6]; simp [raw_block.to_sdm]
          · intro j hj
            obtain ⟨ha, hb⟩ := h7 j (Nat.zero_le _) (by rw [hfull]; exact hj)
            exact ⟨ha, hb (by simpa [raw_block.to_sdm] using hj)⟩

/-! ## Claims -/

/-- C2: on a sharded map returned by `sdm_alloc` with `N` shards (default
routing), `sdm_i_route` of every integer key and `sdm_s_route` of every string
key (a `NULL` key included) return a value (no division by zero, no call
through `NULL`) and that value is below `N`. -/
theorem sdm_alloc_routes_in_range (W : World) (t N r : Nat) (dm : sdm_t)
    (h : (sdm_alloc W t N r).1 = some dm) (k : Int) (s : Option ss_t) :
    (∃ j, sdm_i_route W (some dm) k = some j ∧ j < N)
    ∧ (∃ j, sdm_s_route W (some dm) s = some j ∧ j < N) := by
  obtain ⟨h1, h2, h3, h4, -, -⟩ := sdm_alloc_result W t N r dm h
  have hne2 : ¬ N = 0 := by omega
  have hpos : 0 < N := by omega
  constructor
  · refine ⟨to_size_t k % N, ?_, Nat.mod_lt _ hpos⟩
    simp [sdm_i_route, call_i_hash, h3, sdm_default_i_hash, hne2, h2]
  · cases s with
    | none =>
      exact ⟨0, by simp [sdm_s_route, call_s_hash, h4, sdm_default_s_hash], hpos⟩
    | some b =>
      refine ⟨((ss_csum32 W (some b) SDM_DEF_S_HASH_MAX_SIZE % UINT_MOD / 2
          + ss_csum32 W (some b) SDM_DEF_S_HASH_MAX_SIZE % UINT_MOD) % UINT_MOD) % N, ?_,
        Nat.mod_lt _ hpos⟩
      simp only [sdm_s_route, call_s_hash, h4, sdm_default_s_hash, hne2, if_false, h2]

/-- Instance of C2: three shards, the negative key `-1` and the key "ab". -/
theorem sdm_alloc_routes_in_range_witness :
    (∃ j, sdm_i_route W_ok (some dm_three) (-1) = some j ∧ j < 3)
    ∧ (∃ j, sdm_s_route W_ok (some dm_three) (some [97, 98]) = some j ∧ j < 3) :=
  sdm_alloc_routes_in_range W_ok 2 3 100 dm_three (by decide) (-1) (some [97, 98])

/-- A source map as `sdm_alloc` builds it in `W_ok`: three shards of type 2. -/
theorem sdm_alloc_three :
    (sdm_alloc W_ok 2 3 100).1
      = some dm_three := by
  decide

/-- C4 (the code departs from the claim): when `sm_dup` succeeds on shards
`0 .. i-1` and fails on shard `i < N`, `sdm_dup` returns `NULL`, but its only
effects are the container allocation, the `i + 1` calls of `sm_dup` and the
`free` of the container: the error path starts at the failed index, finds a
`NULL` slot there and stops, so no copy already made is passed to `sm_free`
(or to `free`). -/
theorem sdm_dup_failure_frees_no_copy (W : World) (src : sdm_t) (g : raw_block) (m0 : sm_t)
    (i : Nat) (hi : i < src.nmaps)
    (h0 : src.slot 0 = some m0) (ht : m0.sub_type < SM_TotalTypes)
    (hmalloc : W.sd_malloc src.nmaps = some g)
    (hok : ∀ j, j < i → (W.sm_dup j (src.slot j)).isSome = true)
    (hfail : W.sm_dup i (src.slot i) = none) :
    sdm_dup W (some src)
      = (none, [Event.sd_malloc src.nmaps]
          ++ (List.range (i + 1)).map (fun j => Event.sm_dup (src.slot j))
          ++ [Event.free_dm])
    ∧ (∀ c, Event.sm_free c ∉ (sdm_dup W (some src)).2)
    ∧ (∀ c, Event.free_map c ∉ (sdm_dup W (some src)).2) := by
  have hstop := fill_loop_stops (fun j => W.sm_dup j (src.maps.getD j none))
    (fun j => Event.sm_dup (src.maps.getD j none)) src.nmaps i
    (g.to_sdm (sdm_block_slots (sdm_alloc_size src.nmaps))) hi hok hfail
  obtain ⟨-, -, -, -, -, -, -, h8, -, h10⟩ :=
    fill_loop_spec (fun j => W.sm_dup j (src.maps.getD j none))
      (fun j => Event.sm_dup (src.maps.getD j none)) src.nmaps 0
      (g.to_sdm (sdm_block_slots (sdm_alloc_size src.nmaps)))
  rw [hstop] at h8 h10
  have hroll := sdm_dup_rollback_at_null (src.nmaps - i) i _ (h8 (by omega)).2
  have hN : ¬ src.nmaps = 0 := by omega
  have hiN : i ≠ src.nmaps := by omega
  have hmin : min (i + 1) src.nmaps = i + 1 := by omega
  have h0b : src.maps.getD 0 none = some m0 := h0
  have htb : ¬ m0.sub_type ≥ SM_TotalTypes := by omega
  have heq : sdm_dup W (some src)
      = (none, [Event.sd_malloc src.nmaps]
          ++ (List.range (i + 1)).map (fun j => Event.sm_dup (src.slot j))
          ++ [Event.free_dm]) := by
    unfold sdm_dup
    simp only [sdm_size, sdm_submaps_r, hN, if_false, h0b, htb, hmalloc, sdm_dup_loop_eq_fill,
      hstop, ne_eq, hiN, not_false_eq_true, if_true, hroll, h10, hmin, Nat.sub_zero,
      List.range_eq_range', List.append_nil, sdm_t.slot]
  refine ⟨heq, ?_, ?_⟩
  · intro c; rw [heq]; simp
  · intro c; rw [heq]; simp

/-- C4, evaluated at the failing input: three source shards, the third copy
fails.  The copies of shards 0 and 1 (addresses 1100 and 1101) have been made
and never reach `sm_free`. -/
theorem sdm_dup_failure_frees_no_copy_witness :
    sdm_dup (W_fail_at 2) (some dm_three)
      = (none, [Event.sd_malloc 3, Event.sm_dup (some ⟨100, 2⟩), Event.sm_dup (some ⟨101, 2⟩),
          Event.sm_dup (some ⟨102, 2⟩), Event.free_dm])
    ∧ (∀ c, Event.sm_free c ∉ (sdm_dup (W_fail_at 2) (some dm_three)).2)
    ∧ (∀ c, Event.free_map c ∉ (sdm_dup (W_fail_at 2) (some dm_three)).2) :=
  sdm_dup_failure_frees_no_copy (W_fail_at 2) dm_three zero_block ⟨100, 2⟩ 2 (by decide) rfl
    (by decide) rfl (fun j hj => by interval_cases j <;> rfl) rfl

/-- C5 (the code departs from the claim): when `sdm_dup` returns a map, its
slots hold the copies of the source's submaps, but `sdm_size` of the result is
whatever the `nmaps` field of the fresh block held, because `sdm_dup` never
stores the shard count (nor the routers) in the new container. -/
theorem sdm_dup_size_not_set (W : World) (src : sdm_t) (g : raw_block) (dup : sdm_t)
    (hmalloc : W.sd_malloc src.nmaps = some g)
    (h : (sdm_dup W (some src)).1 = some dup) :
    sdm_size (some dup) = g.nmaps
    ∧ ∀ j, j < sdm_size (some src) → dup.slot j = W.sm_dup j (src.slot j) := by
  obtain ⟨h1, -, -, -, h5⟩ := sdm_dup_result W src g dup hmalloc h
  exact ⟨h1, fun j hj => (h5 j hj).2⟩

/-- C5, evaluated at the failing input: every copy succeeds on a source with
three shards and the block comes zero-filled; the duplicate has size 0, not 3. -/
theorem sdm_dup_size_not_set_witness :
    (sdm_dup W_ok (some dm_three)).1 = some dup_three
    ∧ sdm_size (some dm_three) = 3
    ∧ sdm_size (some dup_three) = 0
    ∧ ∀ j, j < sdm_size (some dm_three) →
        dup_three.slot j = W_ok.sm_dup j (dm_three.slot j) :=
  ⟨by decide, rfl,
    (sdm_dup_size_not_set W_ok dm_three zero_block dup_three rfl (by decide)).1,
    (sdm_dup_size_not_set W_ok dm_three zero_block dup_three rfl (by decide)).2⟩

/-- Conversion of a signed 64-bit key to `size_t`: unchanged when the key is
non-negative, `k + 2^64` when it is negative. -/
theorem to_size_t_eq (k : Int) (hk : is_int64 k) :
    (0 ≤ k → to_size_t k = k.toNat) ∧ (k < 0 → to_size_t k = (k + 2 ^ 64).toNat) := by
  unfold is_int64 at hk
  unfold to_size_t SIZE_MOD
  norm_num at hk ⊢
  constructor
  · intro h; congr 1; omega
  · intro h; congr 1; omega

/-- The default routers on a non-null map with at least one shard. -/
theorem sdm_default_i_hash_eq (dm : sdm_t) (k : Int) (h : 1 ≤ dm.nmaps) :
    sdm_default_i_hash (some dm) k = some (to_size_t k % dm.nmaps) := by
  have : ¬ dm.nmaps = 0 := by omega
  simp [sdm_default_i_hash, this]

/-- C6 (as amended): on a sharded map returned by `sdm_alloc` with `N` shards,
the default integer router sends a signed 64-bit key `k ≥ 0` to `k mod N`, and
a key `k < 0` to `(k + 2^64) mod N`: the remainder is taken after the key is
converted to the unsigned type of the shard count. -/
theorem sdm_i_route_default (W : World) (t N r : Nat) (dm : sdm_t)
    (h : (sdm_alloc W t N r).1 = some dm) (k : Int) (hk : is_int64 k) :
    (0 ≤ k → sdm_i_route W (some dm) k = some (k.toNat % N))
    ∧ (k < 0 → sdm_i_route W (some dm) k = some ((k + 2 ^ 64).toNat % N)) := by
  obtain ⟨h1, h2, h3, -, -, -⟩ := sdm_alloc_result W t N r dm h
  obtain ⟨ha, hb⟩ := to_size_t_eq k hk
  have hr : sdm_i_route W (some dm) k = some (to_size_t k % N) := by
    simp only [sdm_i_route, call_i_hash, h3]
    rw [sdm_default_i_hash_eq dm k (by omega), h2]
  constructor
  · intro h0; rw [hr, ha h0]
  · intro h0; rw [hr, hb h0]

/-- Instance of C6 (as amended): three shards; key 7 goes to shard 1 and key
-1 to shard `(2^64 - 1) mod 3 = 0`. -/
theorem sdm_i_route_default_witness :
    sdm_i_route W_ok (some dm_three) 7 = some 1
    ∧ sdm_i_route W_ok (some dm_three) (-1) = some 0 :=
  ⟨(sdm_i_route_default W_ok 2 3 100 dm_three (by decide) 7 (by decide)).1 (by decide),
   (sdm_i_route_default W_ok 2 3 100 dm_three (by decide) (-1) (by decide)).2 (by decide)⟩

/-- C6 as stated fails: with three shards the key `-1` is routed to shard 0,
whereas the index in `[0, 3)` congruent to `-1` modulo 3 is 2. -/
theorem sdm_i_route_negative_key_counterexample :
    (sdm_alloc W_ok 2 3 100).1 = some dm_three ∧ is_int64 (-1)
    ∧ sdm_i_route W_ok (some dm_three) (-1) = some 0
    ∧ ¬ ∃ j : Nat, sdm_i_route W_ok (some dm_three) (-1) = some j ∧ j < 3
          ∧ ((j : Int) - (-1)) % 3 = 0 := by
  refine ⟨by decide, by decide, by decide, ?_⟩
  rintro ⟨j, hj, -, hmod⟩
  have h0 : sdm_i_route W_ok (some dm_three) (-1) = some 0 := by decide
  rw [h0] at hj
  have : j = 0 := by simpa using hj.symm
  subst this
  simp at hmod

/-- The default string router on a non-null map with at least one shard and a
non-null key. -/
theorem sdm_default_s_hash_eq (W : World) (dm : sdm_t) (s : ss_t) (h : 1 ≤ dm.nmaps) :
    sdm_default_s_hash W (some dm) (some s)
      = some (((ss_csum32 W (some s) SDM_DEF_S_HASH_MAX_SIZE % UINT_MOD / 2
          + ss_csum32 W (some s) SDM_DEF_S_HASH_MAX_SIZE % UINT_MOD) % UINT_MOD) % dm.nmaps) := by
  have : ¬ dm.nmaps = 0 := by omega
  simp only [sdm_default_s_hash, this, if_false]

/-- C7 (as amended): on a sharded map with `N ≥ 1` shards under default
routing, a string key whose 32-bit checksum over its first 16 bytes is `c` is
routed to `((c / 2 + c) mod 2^32) mod N`, the sum being reduced to 32 bits
before the remainder is taken; this is `(c / 2 + c) mod N` whenever
`c / 2 + c < 2^32`. -/
theorem sdm_s_route_default (W : World) (dm : sdm_t) (N : Nat) (s : ss_t) (c : Nat)
    (hN : 1 ≤ N) (hnmaps : dm.nmaps = N)
    (hsh : dm.sh = some s_hash_fn.sdm_default_s_hash)
    (hc : ss_csum32 W (some s) SDM_DEF_S_HASH_MAX_SIZE % UINT_MOD = c) :
    sdm_s_route W (some dm) (some s) = some (((c / 2 + c) % 2 ^ 32) % N)
    ∧ (c / 2 + c < 2 ^ 32 → sdm_s_route W (some dm) (some s) = some ((c / 2 + c) % N)) := by
  have hr : sdm_s_route W (some dm) (some s) = some (((c / 2 + c) % 2 ^ 32) % N) := by
    simp only [sdm_s_route, call_s_hash, hsh]
    rw [sdm_default_s_hash_eq W dm s (by omega), hc, hnmaps]
    rfl
  refine ⟨hr, ?_⟩
  intro hlt
  rw [hr, Nat.mod_eq_of_lt hlt]

/-- Instance of C7 (as amended): three shards, key "ab" with checksum
`97 + 98 = 195`; `195 / 2 + 195 = 292` and `292 mod 3 = 1`. -/
theorem sdm_s_route_default_witness :
    sdm_s_route W_ok (some dm_three) (some [97, 98]) = some (((195 / 2 + 195) % 2 ^ 32) % 3)
    ∧ sdm_s_route W_ok (some dm_three) (some [97, 98]) = some 1 :=
  ⟨(sdm_s_route_default W_ok dm_three 3 [97, 98] 195 (by decide) rfl rfl (by decide)).1,
   (sdm_s_route_default W_ok dm_three 3 [97, 98] 195 (by decide) rfl rfl (by decide)).2
     (by decide)⟩

/-- C7 as stated fails: with three shards and a key whose checksum is
`2^32 - 1`, the router returns 0, whereas `(c / 2 + c) mod 3` is 1. -/
theorem sdm_s_route_wrap_counterexample :
    ss_csum32 W_csum_max (some [97, 98]) SDM_DEF_S_HASH_MAX_SIZE % UINT_MOD = 4294967295
    ∧ dm_three.nmaps = 3 ∧ dm_three.sh = some s_hash_fn.sdm_default_s_hash
    ∧ sdm_s_route W_csum_max (some dm_three) (some [97, 98]) = some 0
    ∧ (4294967295 / 2 + 4294967295) % 3 = 1
    ∧ sdm_s_route W_csum_max (some dm_three) (some [97, 98])
        ≠ some ((4294967295 / 2 + 4294967295) % 3) := by
  refine ⟨by decide, rfl, rfl, by decide, by decide, by decide⟩

/-- C8: under default routing `sdm_s_route` depends only on the first 16 bytes
of the key and on the shard count: two maps with the same shard count and two
keys with the same first 16 bytes (whatever follows) give the same result; in
particular a repeated call with the same key gives the same result. -/
theorem sdm_s_route_first_16_bytes (W : World) (dm1 dm2 : sdm_t) (s1 s2 : ss_t)
    (h1 : dm1.sh = some s_hash_fn.sdm_default_s_hash)
    (h2 : dm2.sh = some s_hash_fn.sdm_default_s_hash)
    (hN : dm1.nmaps = dm2.nmaps)
    (hkey : s1.take 16 = s2.take 16) :
    sdm_s_route W (some dm1) (some s1) = sdm_s_route W (some dm2) (some s2) := by
  simp only [sdm_s_route, call_s_hash, h1, h2, sdm_default_s_hash, ss_csum32,
    SDM_DEF_S_HASH_MAX_SIZE, hkey, hN]

/-- Instance of C8: two keys of 17 bytes that differ in the last byte only. -/
theorem sdm_s_route_first_16_bytes_witness :
    sdm_s_route W_ok (some dm_three) (some (List.replicate 16 97 ++ [98]))
      = sdm_s_route W_ok (some dm_three) (some (List.replicate 16 97 ++ [99])) :=
  sdm_s_route_first_16_bytes W_ok dm_three dm_three _ _ rfl rfl rfl (by decide)

/-- C9: after `sdm_set_routing(dm, f, g)` on a non-null map, whatever routers
were installed before, the router pointers stored are `f` and `g`, or the
defaults where `NULL` was passed; `sdm_i_route(dm, k)` is the value
`f(dm, k)` of the user router when `f` is one, and the default integer route
when `f` is `NULL` (or the default itself); `sdm_s_route(dm, s)` is the value
`g(dm, s)` of the user router when `g` is one, and the default string route
when `g` is `NULL` (or the default itself); the shard count and the submaps
are unchanged. -/
theorem sdm_set_routing_routes (W : World) (dm : sdm_t) (f : sdm_i_hash_t) (g : sdm_s_hash_t)
    (k : Int) (s : Option ss_t) :
    ∃ d, sdm_set_routing (some dm) f g = some d
      ∧ d.nmaps = dm.nmaps ∧ d.maps = dm.maps
      ∧ d.ih = some (f.getD i_hash_fn.sdm_default_i_hash)
      ∧ d.sh = some (g.getD s_hash_fn.sdm_default_s_hash)
      ∧ (∀ id, f = some (i_hash_fn.user id) →
          sdm_i_route W (some d) k = some (W.user_i_hash id d k))
      ∧ (f = some i_hash_fn.sdm_default_i_hash →
          sdm_i_route W (some d) k = sdm_default_i_hash (some d) k)
      ∧ (f = none → sdm_i_route W (some d) k = sdm_default_i_hash (some d) k)
      ∧ (∀ id, g = some (s_hash_fn.user id) →
          sdm_s_route W (some d) s = some (W.user_s_hash id d s))
      ∧ (g = some s_hash_fn.sdm_default_s_hash →
          sdm_s_route W (some d) s = sdm_default_s_hash W (some d) s)
      ∧ (g = none → sdm_s_route W (some d) s = sdm_default_s_hash W (some d) s) := by
  refine ⟨_, rfl, rfl, rfl, ?_, ?_, ?_, ?_, ?_, ?_, ?_, ?_⟩
  · cases f <;> rfl
  · cases g <;> rfl
  · intro id hf; subst hf; rfl
  · intro hf; subst hf; rfl
  · intro hf; subst hf; rfl
  · intro id hg; subst hg; rfl
  · intro hg; subst hg; rfl
  · intro hg; subst hg; rfl

/-- Instance of C9 in `W_ok`, whose integer router number `id` sends `k` to
`k + id` and whose string router number `id` returns `id`: with the user
routers 5 and 2 installed on `dm_three`, key 7 goes to 12 and key "ab" to 2;
passing `NULL` for both afterwards brings back the default routes 1 and 1. -/
theorem sdm_set_routing_routes_witness :
    sdm_i_route W_ok
        (sdm_set_routing (some dm_three) (some (i_hash_fn.user 5)) (some (s_hash_fn.user 2))) 7
      = some 12
    ∧ sdm_s_route W_ok
        (sdm_set_routing (some dm_three) (some (i_hash_fn.user 5)) (some (s_hash_fn.user 2)))
        (some [97, 98])
      = some 2
    ∧ sdm_i_route W_ok
        (sdm_set_routing
          (sdm_set_routing (some dm_three) (some (i_hash_fn.user 5)) (some (s_hash_fn.user 2)))
          none none) 7
      = some 1
    ∧ sdm_s_route W_ok
        (sdm_set_routing
          (sdm_set_routing (some dm_three) (some (i_hash_fn.user 5)) (some (s_hash_fn.user 2)))
          none none) (some [97, 98])
      = some 1
    ∧ ∃ d, sdm_set_routing (some dm_three) (some (i_hash_fn.user 5)) (some (s_hash_fn.user 2))
          = some d
        ∧ sdm_i_route W_ok (some d) 7 = some (W_ok.user_i_hash 5 d 7)
        ∧ sdm_s_route W_ok (some d) (some [97, 98]) = some (W_ok.user_s_hash 2 d (some [97, 98])) :=
  ⟨by decide, by decide, by decide, by decide,
    (sdm_set_routing_routes W_ok dm_three (some (i_hash_fn.user 5)) (some (s_hash_fn.user 2)) 7
      (some [97, 98])).elim
      (fun d h => ⟨d, h.1, h.2.2.2.2.2.1 5 rfl, h.2.2.2.2.2.2.2.2.1 2 rfl⟩)⟩

/-- The loop of `sdm_reset` calls `sm_reset` on each remaining shard and
accumulates the conjunction of the results. -/
theorem sdm_reset_loop_spec (W : World) (dm : sdm_t) (rem i : Nat) (res : Bool) :
    sdm_reset_loop W dm rem i res
      = (res && (List.range' i rem).all (fun j => W.sm_reset j (dm.slot j)),
         (List.range' i rem).map (fun j => Event.sm_reset (dm.slot j))) := by
  induction rem generalizing i res with
  | zero => simp [sdm_reset_loop]
  | succ rem ih =>
    simp only [sdm_reset_loop, ih, List.range'_succ, List.all_cons, List.map_cons, Bool.and_assoc]

/-- C10: on a non-null sharded map with `N = nmaps` shards, `sdm_reset` calls
`sm_reset` once on each of the shards `0 .. N-1`, in this order and whatever
the earlier calls returned, and returns true exactly when every one of these
calls returned true. -/
theorem sdm_reset_all_shards (W : World) (dm : sdm_t) :
    (sdm_reset W (some dm)).2
        = (List.range (sdm_size (some dm))).map (fun i => Event.sm_reset (dm.slot i))
    ∧ ((sdm_reset W (some dm)).1 = true
        ↔ ∀ i, i < sdm_size (some dm) → W.sm_reset i (dm.slot i) = true) := by
  simp only [sdm_reset, sdm_reset_loop_spec, List.range_eq_range', Bool.true_and, List.all_eq_true,
    List.mem_range'_1, true_and]
  constructor
  · intro h i hi; exact h i ⟨Nat.zero_le _, by omega⟩
  · intro h i hi; exact h i (by omega)

/-! ## Claims on the reserve hint and on null handles -/

/-- The error path of `sdm_alloc` only frees maps. -/
theorem sdm_alloc_rollback_events (rem i : Nat) (dm : sdm_t) (e : Event)
    (he : e ∈ sdm_alloc_rollback rem i dm) : ∃ m, e = Event.free_map m := by
  induction rem generalizing i with
  | zero => simp [sdm_alloc_rollback] at he
  | succ rem ih =>
    simp only [sdm_alloc_rollback] at he
    cases hs : dm.slot i with
    | none => simp [hs] at he
    | some m =>
      simp only [hs, List.mem_cons] at he
      rcases he with he | he
      · exact ⟨m, he⟩
      · exact ih (i + 1) he

/-- Every `sm_alloc` call `sdm_alloc` makes carries the type tag it was given
and the per-submap reserve `sdm_alloc_nelems`. -/
theorem sdm_alloc_trace_requests (W : World) (t N r : Nat) (t1 n : Nat)
    (h : Event.sm_alloc t1 n ∈ (sdm_alloc W t N r).2) :
    t1 = t ∧ n = sdm_alloc_nelems N r := by
  unfold sdm_alloc at h
  by_cases hN : N < 1
  · simp [hN] at h
  · simp only [hN, if_false] at h
    cases hm : W.sd_malloc N with
    | none => simp [hm] at h
    | some g =>
      simp only [hm, sdm_alloc_loop_eq_fill] at h
      obtain ⟨-, -, -, -, -, -, -, -, -, h10⟩ :=
        fill_loop_spec (fun j => W.sm_alloc j t (sdm_alloc_nelems N r))
          (fun _ => Event.sm_alloc t (sdm_alloc_nelems N r)) N 0
          { nmaps := 0, ih := none, sh := none,
            maps := List.replicate (sdm_block_slots (sdm_alloc_size N)) none }
      split at h
      · simp only [h10, List.mem_append, List.mem_cons, List.mem_map, List.mem_singleton,
          List.not_mem_nil, or_false] at h
        rcases h with ((h | h) | h) | h
        · rcases h with h | h <;> cases h
        · obtain ⟨_, -, h⟩ := h
          cases h; exact ⟨rfl, rfl⟩
        · obtain ⟨m, hm⟩ := sdm_alloc_rollback_events _ _ _ _ h
          cases hm
        · cases h
      · split at h
        · simp only [h10, List.mem_append, List.mem_cons, List.mem_map,
            List.not_mem_nil, or_false] at h
          rcases h with h | h
          · rcases h with h | h <;> cases h
          · obtain ⟨_, -, h⟩ := h
            cases h; exact ⟨rfl, rfl⟩
        · simp only [sdm_set_routing, h10, List.mem_append, List.mem_cons, List.mem_map,
            List.not_mem_nil, or_false] at h
          rcases h with h | h
          · rcases h with h | h <;> cases h
          · obtain ⟨_, -, h⟩ := h
            cases h; exact ⟨rfl, rfl⟩

/-- Trace of a successful `sdm_alloc`: the container allocation, its clearing
and exactly `N` calls of `sm_alloc`. -/
theorem sdm_alloc_success_trace (W : World) (t N r : Nat) (g : raw_block)
    (hN : 1 ≤ N) (hmalloc : W.sd_malloc N = some g)
    (halloc : ∀ j, j < N → (W.sm_alloc j t (sdm_alloc_nelems N r)).isSome = true) :
    (sdm_alloc W t N r).2
      = [Event.sd_malloc N, Event.memset_zero]
          ++ List.replicate N (Event.sm_alloc t (sdm_alloc_nelems N r)) := by
  have hfull := fill_loop_full (fun j => W.sm_alloc j t (sdm_alloc_nelems N r))
    (fun _ => Event.sm_alloc t (sdm_alloc_nelems N r)) N
    { nmaps := 0, ih := none, sh := none,
      maps := List.replicate (sdm_block_slots (sdm_alloc_size N)) none } halloc
  obtain ⟨-, -, -, -, -, -, -, -, -, h10⟩ :=
    fill_loop_spec (fun j => W.sm_alloc j t (sdm_alloc_nelems N r))
      (fun _ => Event.sm_alloc t (sdm_alloc_nelems N r)) N 0
      { nmaps := 0, ih := none, sh := none,
        maps := List.replicate (sdm_block_slots (sdm_alloc_size N)) none }
  rw [hfull] at h10
  have hN2 : ¬ N < 1 := by omega
  have hmin : min (N + 1) N = N := by omega
  unfold sdm_alloc
  simp only [hN2, if_false, hmalloc, sdm_alloc_loop_eq_fill, hfull, ne_eq, not_true_eq_false,
    sdm_set_routing, h10, hmin, Nat.sub_zero, List.map_const', List.length_range']
  split <;> rfl

/-- The per-submap reserve does not wrap except for one shard and the largest
reserve hint. -/
theorem sdm_alloc_nelems_eq (N r : Nat) (hN : 1 ≤ N) (hr : r < 2 ^ 64)
    (hne : ¬ (N = 1 ∧ r = 2 ^ 64 - 1)) :
    sdm_alloc_nelems N r = r / N + 1 := by
  unfold sdm_alloc_nelems SIZE_MOD
  apply Nat.mod_eq_of_lt
  by_cases h1 : N = 1
  · subst h1
    rw [Nat.div_one]
    omega
  · have h2 : 2 ≤ N := by omega
    have h3 : r / N ≤ r / 2 := Nat.div_le_div_left h2 (by decide)
    omega

/-- C11 (as amended): for every shard count `N ≥ 1` and reserve hint
`r < 2^64`, the pair `N = 1`, `r = 2^64 - 1` excepted, every `sm_alloc` call of
`sdm_alloc` asks for `r / N + 1` elements, which is at least 1, and `N` such
requests exceed `r`; when all allocations succeed exactly `N` requests are
made. -/
theorem sdm_alloc_requests (W : World) (t N r : Nat) (hN : 1 ≤ N) (hr : r < 2 ^ 64)
    (hne : ¬ (N = 1 ∧ r = 2 ^ 64 - 1)) :
    (∀ t1 n, Event.sm_alloc t1 n ∈ (sdm_alloc W t N r).2 → t1 = t ∧ n = r / N + 1)
    ∧ 1 ≤ r / N + 1
    ∧ r < N * (r / N + 1)
    ∧ (∀ g, W.sd_malloc N = some g →
        (∀ j, j < N → (W.sm_alloc j t (r / N + 1)).isSome = true) →
        (sdm_alloc W t N r).2
          = [Event.sd_malloc N, Event.memset_zero]
              ++ List.replicate N (Event.sm_alloc t (r / N + 1))) := by
  have hn := sdm_alloc_nelems_eq N r hN hr hne
  refine ⟨?_, Nat.le_add_left 1 _, Nat.lt_mul_div_succ r (by omega), ?_⟩
  · intro t1 n h
    rw [← hn]
    exact sdm_alloc_trace_requests W t N r t1 n h
  · intro g hg hall
    rw [← hn] at hall ⊢
    exact sdm_alloc_success_trace W t N r g hN hg hall

/-- Instance of C11 (as amended): four shards and reserve hint 100, every
request is for 26 elements. -/
theorem sdm_alloc_requests_witness :
    (∀ t1 n, Event.sm_alloc t1 n ∈ (sdm_alloc W_ok 2 4 100).2 → t1 = 2 ∧ n = 26)
    ∧ (sdm_alloc W_ok 2 4 100).2
        = [Event.sd_malloc 4, Event.memset_zero] ++ List.replicate 4 (Event.sm_alloc 2 26) :=
  ⟨(sdm_alloc_requests W_ok 2 4 100 (by decide) (by decide) (by decide)).1,
   (sdm_alloc_requests W_ok 2 4 100 (by decide) (by decide) (by decide)).2.2.2
     zero_block rfl (fun _ _ => rfl)⟩

/-- C11 as stated fails: with one shard and the reserve hint `2^64 - 1` the sum
`r / N + 1` wraps, and the only request made is for 0 elements. -/
theorem sdm_alloc_requests_wrap_counterexample :
    (sdm_alloc W_ok 2 1 18446744073709551615).2
      = [Event.sd_malloc 1, Event.memset_zero, Event.sm_alloc 2 0]
    ∧ ¬ (∀ t1 n, Event.sm_alloc t1 n ∈ (sdm_alloc W_ok 2 1 18446744073709551615).2 →
          n = 18446744073709551615 / 1 + 1 ∧ 1 ≤ n) := by
  have h : (sdm_alloc W_ok 2 1 18446744073709551615).2
      = [Event.sd_malloc 1, Event.memset_zero, Event.sm_alloc 2 0] := by decide
  refine ⟨h, ?_⟩
  intro hall
  have := (hall 2 0 (by rw [h]; simp)).2
  omega

/-- C12: with shard count 0, `sdm_alloc` returns `NULL` and has no effect: it
allocates neither the container nor a submap. -/
theorem sdm_alloc_zero_shards (W : World) (t r : Nat) :
    sdm_alloc W t 0 r = (none, []) := by
  simp [sdm_alloc]

/-- C13: on a `NULL` sharded map (non-debug build) `sdm_size` is 0, both
routers return 0 for every key, `sdm_submaps` and `sdm_submaps_r` return
`NULL`, `sdm_dup` returns `NULL` without any effect, `sdm_set_routing` changes
nothing, and `sdm_shrink` on a `NULL` reference or on a handle holding `NULL`
changes nothing and calls nothing. -/
theorem null_handle_neutral (W : World) (k : Int) (s : Option ss_t)
    (f : sdm_i_hash_t) (g : sdm_s_hash_t) (hs : handles) :
    sdm_size none = 0
    ∧ sdm_i_route W none k = some 0
    ∧ sdm_s_route W none s = some 0
    ∧ sdm_submaps none = none
    ∧ sdm_submaps_r none = none
    ∧ sdm_dup W none = (none, [])
    ∧ sdm_set_routing none f g = none
    ∧ sdm_shrink W hs none = (hs, [])
    ∧ (∀ a, deref hs a = none → sdm_shrink W hs (some a) = (hs, [])) := by
  refine ⟨rfl, rfl, rfl, rfl, rfl, rfl, rfl, rfl, ?_⟩
  intro a ha
  simp [sdm_shrink, ha]

/-- C14 (as amended): on a `NULL` sharded map `sdm_reset` resets nothing and
returns true, the value `res_ok` is initialised with. -/
theorem sdm_reset_null (W : World) : sdm_reset W none = (true, []) := rfl

/-- C14 as stated fails: the result of `sdm_reset` on `NULL` is not false. -/
theorem sdm_reset_null_counterexample : (sdm_reset W_ok none).1 ≠ false := by
  decide

/-! ## Bulk operations -/

/-- The loop of `sdm_shrink` calls `sm_shrink` on each remaining shard, in
ascending order, on what the slot held when the loop was entered. -/
theorem sdm_shrink_loop_trace (W : World) (rem i : Nat) (d : sdm_t) :
    (sdm_shrink_loop W rem i d).2
      = (List.range' i rem).map (fun j => Event.sm_shrink (d.slot j)) := by
  induction rem generalizing i d with
  | zero => simp [sdm_shrink_loop]
  | succ rem ih =>
    simp only [sdm_shrink_loop, ih, List.range'_succ, List.map_cons, List.cons.injEq, true_and]
    apply List.map_congr_left
    intro j hj
    rw [List.mem_range'_1] at hj
    rw [slot_set_slot_ne d i j _ (by omega)]

/-- The loop of `sdm_free_aux1` calls `sm_free` on each remaining shard, in
ascending order, on what the slot held when the loop was entered. -/
theorem sdm_free_loop_trace (rem i : Nat) (d : sdm_t) :
    (sdm_free_loop rem i d).2
      = (List.range' i rem).map (fun j => Event.sm_free (d.slot j)) := by
  induction rem generalizing i d with
  | zero => simp [sdm_free_loop]
  | succ rem ih =>
    simp only [sdm_free_loop, ih, List.range'_succ, List.map_cons, List.cons.injEq, true_and]
    apply List.map_congr_left
    intro j hj
    rw [List.mem_range'_1] at hj
    rw [slot_set_slot_ne d i j _ (by omega)]

/-- Effects of `sdm_free_aux1` on a handle that holds a container: one
`sm_free` per shard in ascending order, then the `free` of the container; the
handle is cleared. -/
theorem sdm_free_aux1_some (hs : handles) (a : Nat) (d : sdm_t) (h : deref hs a = some d) :
    sdm_free_aux1 hs (some a)
      = (hs.set a none,
         (List.range (sdm_size (some d))).map (fun i => Event.sm_free (d.slot i))
           ++ [Event.free_dm]) := by
  simp only [sdm_free_aux1, h, sdm_free_loop_trace, List.range_eq_range']

/-- C15: on a handle that holds a sharded map with `N` shards, `sdm_shrink`,
`sdm_reset` and `sdm_free` (one handle) call `sm_shrink`, `sm_reset` and
`sm_free` once on each of the shards `0, 1, .., N-1`, in this order, and
nothing else, except that `sdm_free` ends with the `free` of the container. -/
theorem bulk_operations_ascending (W : World) (hs : handles) (a : Nat) (d : sdm_t)
    (h : deref hs a = some d) :
    (sdm_shrink W hs (some a)).2
        = (List.range (sdm_size (some d))).map (fun i => Event.sm_shrink (d.slot i))
    ∧ (sdm_reset W (some d)).2
        = (List.range (sdm_size (some d))).map (fun i => Event.sm_reset (d.slot i))
    ∧ (sdm_free_aux 1 hs (some a) []).2
        = (List.range (sdm_size (some d))).map (fun i => Event.sm_free (d.slot i))
            ++ [Event.free_dm] := by
  refine ⟨?_, ?_, ?_⟩
  · simp only [sdm_shrink, h, sdm_shrink_loop_trace, List.range_eq_range']
  · simp only [sdm_reset, sdm_reset_loop_spec, List.range_eq_range']
  · simp only [sdm_free_aux, sdm_free_aux1_some hs a d h, gt_iff_lt, lt_self_iff_false, if_false]

/-- Instance of C15: a handle holding the three-shard map `dm_three`. -/
theorem bulk_operations_ascending_witness :
    (sdm_shrink W_ok [some dm_three] (some 0)).2
        = [Event.sm_shrink (some ⟨100, 2⟩), Event.sm_shrink (some ⟨101, 2⟩),
           Event.sm_shrink (some ⟨102, 2⟩)]
    ∧ (sdm_reset W_ok (some dm_three)).2
        = [Event.sm_reset (some ⟨100, 2⟩), Event.sm_reset (some ⟨101, 2⟩),
           Event.sm_reset (some ⟨102, 2⟩)]
    ∧ (sdm_free_aux 1 [some dm_three] (some 0) []).2
        = [Event.sm_free (some ⟨100, 2⟩), Event.sm_free (some ⟨101, 2⟩),
           Event.sm_free (some ⟨102, 2⟩), Event.free_dm] :=
  bulk_operations_ascending W_ok [some dm_three] 0 dm_three rfl

/-! ## Type tags -/

/-- The container is tagged `t` exactly when each of its submaps is. -/
theorem all_tagged_iff_slots (dm : sdm_t) (t : Nat) :
    all_tagged dm t = true ↔ ∀ j, j < dm.nmaps → slot_tagged t (dm.slot j) = true := by
  simp only [all_tagged, List.all_eq_true, List.mem_range]

/-- A tagged slot holds a map with that tag. -/
theorem slot_tagged_iff (t : Nat) (s : Option sm_t) :
    slot_tagged t s = true ↔ ∃ m, s = some m ∧ m.sub_type = t := by
  cases s with
  | none => simp [slot_tagged]
  | some m => simp [slot_tagged]

/-- All submaps carry one tag exactly when some tag is carried by all. -/
theorem same_type_tag_iff (dm : sdm_t) :
    same_type_tag dm = true ↔ ∃ t, all_tagged dm t = true := by
  unfold same_type_tag
  cases hs : dm.slot 0 with
  | none =>
    simp only [decide_eq_true_eq]
    constructor
    · intro h0
      refine ⟨0, ?_⟩
      rw [all_tagged_iff_slots]
      intro j hj; omega
    · rintro ⟨t, ht⟩
      by_contra hne
      have := (all_tagged_iff_slots dm t).1 ht 0 (by omega)
      rw [hs] at this
      simp [slot_tagged] at this
  | some m =>
    simp only
    constructor
    · intro h; exact ⟨_, h⟩
    · rintro ⟨t, ht⟩
      by_cases h0 : dm.nmaps = 0
      · rw [all_tagged_iff_slots]
        intro j hj; omega
      · have := (all_tagged_iff_slots dm t).1 ht 0 (by omega)
        rw [hs] at this
        have hm : m.sub_type = t := by simpa [slot_tagged] using this
        rw [hm]; exact ht

/-- Replacing a submap by a tagged map keeps the container tagged. -/
theorem all_tagged_set_slot (dm : sdm_t) (t i : Nat) (v : Option sm_t)
    (h : all_tagged dm t = true) (hv : i < dm.nmaps → slot_tagged t v = true) :
    all_tagged (dm.set_slot i v) t = true := by
  rw [all_tagged_iff_slots] at h ⊢
  intro j hj
  have hj2 : j < dm.nmaps := hj
  by_cases hji : j = i
  · subst hji
    by_cases hlen : j < dm.maps.length
    · rw [slot_set_slot_eq dm j v hlen]; exact hv hj2
    · have : dm.set_slot j v = dm := by
        unfold sdm_t.set_slot
        rw [List.set_eq_of_length_le (by omega)]
      rw [this]; exact h j hj2
  · rw [slot_set_slot_ne dm i j v hji]; exact h j hj2

/-- The loop of `sdm_shrink` keeps the shard count. -/
theorem sdm_shrink_loop_nmaps (W : World) (rem i : Nat) (d : sdm_t) :
    (sdm_shrink_loop W rem i d).1.nmaps = d.nmaps := by
  induction rem generalizing i d with
  | zero => rfl
  | succ rem ih => simp only [sdm_shrink_loop, ih]; rfl

/-- The loop of `sdm_shrink` keeps the container tagged when `sm_shrink` keeps
the tag of a map. -/
theorem sdm_shrink_loop_tagged (W : World) (t : Nat)
    (h_shrink : ∀ i m, ∃ c, W.sm_shrink i (some m) = some c ∧ c.sub_type = m.sub_type)
    (rem i : Nat) (d : sdm_t) (h : all_tagged d t = true) :
    all_tagged (sdm_shrink_loop W rem i d).1 t = true := by
  induction rem generalizing i d with
  | zero => simpa [sdm_shrink_loop] using h
  | succ rem ih =>
    simp only [sdm_shrink_loop]
    apply ih
    apply all_tagged_set_slot d t i _ h
    intro hi
    obtain ⟨m, hm, hmt⟩ := (slot_tagged_iff t (d.slot i)).1 ((all_tagged_iff_slots d t).1 h i hi)
    obtain ⟨c, hc, hct⟩ := h_shrink i m
    rw [hm, hc]
    exact (slot_tagged_iff t (some c)).2 ⟨c, rfl, by rw [hct, hmt]⟩

/-- The submaps after a reset are tagged as before when `sm_reset` keeps the
tag of a map. -/
theorem sdm_reset_after_loop_tagged (W : World) (t : Nat)
    (h_reset : ∀ i m, W.sm_reset_tag i m = m.sub_type)
    (rem i : Nat) (d : sdm_t) (h : all_tagged d t = true) :
    all_tagged (sdm_reset_after_loop W rem i d) t = true := by
  induction rem generalizing i d with
  | zero => simpa [sdm_reset_after_loop] using h
  | succ rem ih =>
    simp only [sdm_reset_after_loop]
    apply ih
    apply all_tagged_set_slot d t i _ h
    intro hi
    obtain ⟨m, hm, hmt⟩ := (slot_tagged_iff t (d.slot i)).1 ((all_tagged_iff_slots d t).1 h i hi)
    rw [hm]
    exact (slot_tagged_iff t _).2 ⟨_, rfl, by simp only [h_reset]; exact hmt⟩

/-- A successful `sdm_dup` obtained its container from `__sd_malloc`, for a
source with at least one shard. -/
theorem sdm_dup_some_malloc (W : World) (src dup : sdm_t)
    (h : (sdm_dup W (some src)).1 = some dup) :
    1 ≤ src.nmaps ∧ ∃ g, W.sd_malloc src.nmaps = some g := by
  constructor
  · by_contra hc
    have h0 : src.nmaps = 0 := by omega
    simp [sdm_dup, sdm_size, h0] at h
  · cases hm : W.sd_malloc src.nmaps with
    | some g => exact ⟨g, rfl⟩
    | none =>
      exfalso
      unfold sdm_dup at h
      simp only [sdm_size, sdm_submaps_r, hm] at h
      split at h
      · simp at h
      · split at h
        · simp at h
        · split at h <;> simp at h

/-- C16 (the code departs from the claim for `sdm_dup`): given that `sm_alloc`
returns maps of the requested type and that `sm_dup`, `sm_shrink` and
`sm_reset` keep the type tag of a map, every submap `0 .. sdm_size - 1` of the
map returned by `sdm_alloc(t, N, r)` has tag `t`, and the property that all
submaps `0 .. sdm_size - 1` carry one and the same tag is kept by
`sdm_set_routing`, by `sdm_shrink` and by `sdm_reset`.  For `sdm_dup` the
copies in the slots `0 .. N - 1` of the result carry the tag of the source,
but the shard count of the result is the `nmaps` word of the fresh block, so
the property holds for the result exactly when that word is at most `N`. -/
theorem type_tag_invariant (W : World)
    (h_alloc : ∀ i t n m, W.sm_alloc i t n = some m → m.sub_type = t)
    (h_dup : ∀ i m c, W.sm_dup i (some m) = some c → c.sub_type = m.sub_type)
    (h_shrink : ∀ i m, ∃ c, W.sm_shrink i (some m) = some c ∧ c.sub_type = m.sub_type)
    (h_reset : ∀ i m, W.sm_reset_tag i m = m.sub_type) :
    (∀ t N r dm, (sdm_alloc W t N r).1 = some dm →
        sdm_size (some dm) = N ∧ all_tagged dm t = true ∧ same_type_tag dm = true)
    ∧ (∀ d f g d1, same_type_tag d = true → sdm_set_routing (some d) f g = some d1 →
        same_type_tag d1 = true)
    ∧ (∀ hs a d, deref hs a = some d → same_type_tag d = true →
        ∃ d1, deref (sdm_shrink W hs (some a)).1 a = some d1 ∧ same_type_tag d1 = true)
    ∧ (∀ d, same_type_tag d = true →
        ∃ d1, sdm_reset_after W (some d) = some d1 ∧ same_type_tag d1 = true)
    ∧ (∀ src g dup t, W.sd_malloc src.nmaps = some g → all_tagged src t = true →
        (sdm_dup W (some src)).1 = some dup →
        sdm_size (some dup) = g.nmaps
        ∧ (∀ j, j < src.nmaps → slot_tagged t (dup.slot j) = true)
        ∧ (∀ j, src.nmaps ≤ j → dup.slot j = none)
        ∧ (same_type_tag dup = true ↔ g.nmaps ≤ src.nmaps)) := by
  refine ⟨?_, ?_, ?_, ?_, ?_⟩
  · intro t N r dm h
    obtain ⟨-, h2, -, -, -, h6⟩ := sdm_alloc_result W t N r dm h
    have htag : all_tagged dm t = true := by
      rw [all_tagged_iff_slots]
      intro j hj
      obtain ⟨ha, hb⟩ := h6 j (by omega)
      rw [hb]
      cases hm : W.sm_alloc j t (sdm_alloc_nelems N r) with
      | none => rw [hm] at ha; simp at ha
      | some m => exact (slot_tagged_iff t (some m)).2 ⟨m, rfl, h_alloc _ _ _ _ hm⟩
    exact ⟨h2, htag, (same_type_tag_iff dm).2 ⟨t, htag⟩⟩
  · intro d f g d1 hd h
    simp only [sdm_set_routing, Option.some.injEq] at h
    subst h
    exact hd
  · intro hs a d hd htag
    obtain ⟨t, ht⟩ := (same_type_tag_iff d).1 htag
    have ha : a < hs.length := by
      by_contra hlt
      unfold deref at hd
      rw [List.getD_eq_getElem?_getD, List.getElem?_eq_none (by omega)] at hd
      simp at hd
    refine ⟨(sdm_shrink_loop W (sdm_size (some d)) 0 d).1, ?_, ?_⟩
    · simp only [sdm_shrink, hd]
      simp [deref, ha]
    · exact (same_type_tag_iff _).2 ⟨t, sdm_shrink_loop_tagged W t h_shrink _ _ d ht⟩
  · intro d htag
    obtain ⟨t, ht⟩ := (same_type_tag_iff d).1 htag
    exact ⟨_, rfl, (same_type_tag_iff _).2 ⟨t, sdm_reset_after_loop_tagged W t h_reset _ _ d ht⟩⟩
  · intro src g dup t hg ht h
    obtain ⟨hpos, -⟩ := sdm_dup_some_malloc W src dup h
    obtain ⟨h1, -, -, h4, h5⟩ := sdm_dup_result W src g dup hg h
    have hcopies : ∀ j, j < src.nmaps → slot_tagged t (dup.slot j) = true := by
      intro j hj
      obtain ⟨ha, hb⟩ := h5 j hj
      obtain ⟨m, hm, hmt⟩ :=
        (slot_tagged_iff t (src.slot j)).1 ((all_tagged_iff_slots src t).1 ht j hj)
      rw [hb]
      rw [hm] at ha ⊢
      cases hc : W.sm_dup j (some m) with
      | none => rw [hc] at ha; simp at ha
      | some c =>
        exact (slot_tagged_iff t (some c)).2 ⟨c, rfl, by rw [h_dup j m c hc, hmt]⟩
    have hbeyond : ∀ j, src.nmaps ≤ j → dup.slot j = none := by
      intro j hj
      unfold sdm_t.slot
      rw [List.getD_eq_getElem?_getD, List.getElem?_eq_none (by omega)]
      rfl
    refine ⟨h1, hcopies, hbeyond, ?_⟩
    rw [same_type_tag_iff]
    constructor
    · rintro ⟨t1, ht1⟩
      by_contra hgt
      have := (all_tagged_iff_slots dup t1).1 ht1 src.nmaps (by rw [h1]; omega)
      rw [hbeyond src.nmaps (le_refl _)] at this
      simp [slot_tagged] at this
    · intro hle
      refine ⟨t, ?_⟩
      rw [all_tagged_iff_slots]
      intro j hj
      exact hcopies j (by rw [h1] at hj; omega)

/-- C16, evaluated at the failing input: `dm_three`, whose three submaps carry
tag 2, is duplicated into a block whose `nmaps` word holds 7.  The three
copies carry tag 2, but the duplicate reports 7 shards, of which the slots
3 to 6 are no submaps: its submaps do not all carry one tag. -/
theorem type_tag_invariant_witness :
    same_type_tag dm_three = true
    ∧ (sdm_dup W_garbage (some dm_three)).1 = some dup_seven
    ∧ sdm_size (some dup_seven) = 7
    ∧ (∀ j, j < 3 → slot_tagged 2 (dup_seven.slot j) = true)
    ∧ (∀ j, 3 ≤ j → dup_seven.slot j = none)
    ∧ same_type_tag dup_seven = false :=
  have h := (type_tag_invariant W_garbage
    (fun i t n m hm => by
      simp only [W_garbage, W_ok, Option.some.injEq] at hm; rw [← hm])
    (fun i m c hc => by
      simp only [W_garbage, W_ok, Option.map_some', Option.some.injEq] at hc; rw [← hc])
    (fun i m => ⟨_, rfl, rfl⟩)
    (fun i m => rfl)).2.2.2.2 dm_three garbage_block dup_seven 2 rfl (by decide) (by decide)
  ⟨by decide, by decide, h.1, h.2.1, h.2.2.1, by decide⟩

/-- C17 (the code departs from the claim): `sdm_dup` stores no router in the
container it returns, so the routers of the duplicate are whatever the fields
`ih` and `sh` of the fresh block held, and routing through the duplicate calls
through these values, not through the routers of the source. -/
theorem sdm_dup_routers_not_set (W : World) (src : sdm_t) (g : raw_block) (dup : sdm_t)
    (hmalloc : W.sd_malloc src.nmaps = some g)
    (h : (sdm_dup W (some src)).1 = some dup) (k : Int) (s : Option ss_t) :
    dup.ih = g.ih ∧ dup.sh = g.sh
    ∧ sdm_i_route W (some dup) k = call_i_hash W g.ih dup k
    ∧ sdm_s_route W (some dup) s = call_s_hash W g.sh dup s := by
  obtain ⟨-, h2, h3, -, -⟩ := sdm_dup_result W src g dup hmalloc h
  refine ⟨h2, h3, ?_, ?_⟩
  · simp only [sdm_i_route, h2]
  · simp only [sdm_s_route, h3]

/-- C17, evaluated at the failing input: the duplicate of `dm_three` made in a
zero-filled block has `NULL` routers; routing key 7 or key "ab" through it is
a call through `NULL`, whereas the source routes them to shards 1 and 1. -/
theorem sdm_dup_routers_not_set_witness :
    (sdm_dup W_ok (some dm_three)).1 = some dup_three
    ∧ sdm_i_route W_ok (some dm_three) 7 = some 1
    ∧ sdm_s_route W_ok (some dm_three) (some [97, 98]) = some 1
    ∧ sdm_i_route W_ok (some dup_three) 7 = none
    ∧ sdm_s_route W_ok (some dup_three) (some [97, 98]) = none :=
  ⟨by decide, by decide, by decide,
   (sdm_dup_routers_not_set W_ok dm_three zero_block dup_three rfl (by decide) 7
      (some [97, 98])).2.2.1,
   (sdm_dup_routers_not_set W_ok dm_three zero_block dup_three rfl (by decide) 7
      (some [97, 98])).2.2.2⟩

/-! ## Freeing handles -/

/-- The loop over the variadic arguments applies `sdm_free_aux1` to each of
them in turn. -/
theorem sdm_free_aux_va_eq (hs : handles) (ap : List (Option Nat)) :
    sdm_free_aux_va ap.length hs ap = free_each hs ap := by
  induction ap generalizing hs with
  | nil => rfl
  | cons r rs ih =>
    simp only [List.length_cons, sdm_free_aux_va, free_each, List.headD_cons, List.tail_cons, ih]

/-- With `nargs` the number of references passed, `sdm_free_aux` applies
`sdm_free_aux1` to each reference in turn. -/
theorem sdm_free_aux_eq (hs : handles) (dm : Option Nat) (ap : List (Option Nat)) :
    sdm_free_aux (1 + ap.length) hs dm ap = free_each hs (dm :: ap) := by
  have h1 : (match dm with
      | some _ => sdm_free_aux1 hs dm
      | none => (hs, [])) = sdm_free_aux1 hs dm := by
    cases dm <;> rfl
  unfold sdm_free_aux
  simp only [h1, free_each]
  cases ap with
  | nil => simp [free_each]
  | cons r rs =>
    have h2 : 1 + (r :: rs).length > 1 := by simp
    have h3 : 1 + (r :: rs).length - 1 = (r :: rs).length := by simp
    simp only [h2, if_true, h3, sdm_free_aux_va_eq]

/-- Reading a handle after a handle has been cleared. -/
theorem deref_set_none (hs : handles) (a b : Nat) :
    deref (hs.set a none) b = if a = b then none else deref hs b := by
  unfold deref
  simp only [List.getD_eq_getElem?_getD, List.getElem?_set]
  by_cases hab : a = b
  · subst hab
    by_cases ha : a < hs.length <;> simp [ha]
  · simp [hab]

/-- After `sdm_free_aux1` the referenced handle is `NULL` and every other
handle is unchanged. -/
theorem sdm_free_aux1_deref (hs : handles) (r : Option Nat) (b : Nat) :
    deref (sdm_free_aux1 hs r).1 b = if r = some b then none else deref hs b := by
  cases r with
  | none => simp [sdm_free_aux1]
  | some a =>
    cases hd : deref hs a with
    | none =>
      simp only [sdm_free_aux1, hd, Option.some.injEq]
      by_cases hab : a = b
      · subst hab; simp [hd]
      · simp [hab]
    | some d =>
      simp only [sdm_free_aux1, hd, Option.some.injEq]
      exact deref_set_none hs a b

/-- After freeing a list of references, every referenced handle is `NULL` and
every other handle is unchanged. -/
theorem free_each_deref (hs : handles) (rs : List (Option Nat)) (b : Nat) :
    deref (free_each hs rs).1 b = if some b ∈ rs then none else deref hs b := by
  induction rs generalizing hs with
  | nil => simp [free_each]
  | cons r rs ih =>
    simp only [free_each, ih, sdm_free_aux1_deref, List.mem_cons]
    by_cases h1 : some b ∈ rs
    · simp [h1]
    · by_cases h2 : r = some b
      · simp [h2]
      · have h3 : ¬ some b = r := fun h => h2 h.symm
        simp [h1, h2, h3]

/-- References to handles that hold `NULL` are skipped. -/
theorem free_each_null (hs : handles) (rs : List (Option Nat))
    (h : ∀ b, some b ∈ rs → deref hs b = none) : free_each hs rs = (hs, []) := by
  induction rs generalizing hs with
  | nil => rfl
  | cons r rs ih =>
    have h1 : sdm_free_aux1 hs r = (hs, []) := by
      cases r with
      | none => rfl
      | some a => simp [sdm_free_aux1, h a (by simp)]
    simp only [free_each, h1]
    rw [ih hs (fun b hb => h b (by simp [hb]))]
    rfl

/-- Number of containers `sdm_free_aux1` frees: one when the reference points
to a handle holding a container, none otherwise. -/
theorem sdm_free_aux1_count (hs : handles) (r : Option Nat) :
    (sdm_free_aux1 hs r).2.count Event.free_dm
      = if (∃ a, r = some a ∧ (deref hs a).isSome = true) then 1 else 0 := by
  cases r with
  | none => simp [sdm_free_aux1]
  | some a =>
    cases hd : deref hs a with
    | none => simp [sdm_free_aux1, hd]
    | some d =>
      simp only [sdm_free_aux1, hd, sdm_free_loop_trace, List.count_append, Option.some.injEq,
        exists_eq_left', Option.isSome_some, if_true]
      have : List.count Event.free_dm
          (List.map (fun j => Event.sm_free (d.slot j)) (List.range' 0 (sdm_size (some d)))) = 0 := by
        rw [List.count_eq_zero]
        simp
      rw [this]
      simp

/-- Number of containers freed for a list of references: the number of
distinct handles referenced that hold a container. -/
theorem free_each_count (hs : handles) (rs : List (Option Nat)) :
    (free_each hs rs).2.count Event.free_dm
      = ((rs.reduceOption.toFinset).filter (fun b => (deref hs b).isSome = true)).card := by
  induction rs generalizing hs with
  | nil => simp [free_each]
  | cons r rs ih =>
    simp only [free_each, List.count_append, ih, sdm_free_aux1_count]
    cases r with
    | none => simp [sdm_free_aux1]
    | some a =>
      simp only [Option.some.injEq, exists_eq_left', List.reduceOption_cons_of_some,
        List.toFinset_cons]
      cases hd : deref hs a with
      | none =>
        have h1 : sdm_free_aux1 hs (some a) = (hs, []) := by simp [sdm_free_aux1, hd]
        rw [h1, Finset.filter_insert]
        simp [hd]
      | some d =>
        have h1 : (sdm_free_aux1 hs (some a)).1 = hs.set a none := by
          simp [sdm_free_aux1, hd]
        rw [h1, Finset.filter_insert]
        simp only [hd, Option.isSome_some, if_true]
        have h2 : Finset.filter (fun b => (deref (hs.set a none) b).isSome = true)
              rs.reduceOption.toFinset
            = (Finset.filter (fun b => (deref hs b).isSome = true)
                rs.reduceOption.toFinset).erase a := by
          ext b
          simp only [Finset.mem_filter, Finset.mem_erase, deref_set_none]
          by_cases hab : a = b
          · subst hab; simp
          · have hba : ¬ b = a := fun h => hab h.symm
            simp [hab, hba]
        rw [h2]
        by_cases hmem : a ∈ Finset.filter (fun b => (deref hs b).isSome = true)
            rs.reduceOption.toFinset
        · rw [Finset.insert_eq_of_mem hmem, Nat.add_comm, Finset.card_erase_add_one hmem]
        · rw [Finset.erase_eq_of_not_mem hmem, Finset.card_insert_of_not_mem hmem, Nat.add_comm]

/-- C18: `sdm_free_aux` called with `n ≥ 1` handle references (`nargs = n`)
leaves every referenced handle `NULL` and every other handle unchanged, skips
references to handles that already hold `NULL`, frees as many containers as
there are distinct referenced handles holding one (each once: a reference
repeated finds the handle cleared), and a second call with the same references
changes nothing and frees nothing. -/
theorem sdm_free_idempotent (hs : handles) (dm : Option Nat) (ap : List (Option Nat)) :
    (∀ b, some b ∈ dm :: ap → deref (sdm_free_aux (1 + ap.length) hs dm ap).1 b = none)
    ∧ (∀ b, some b ∉ dm :: ap →
        deref (sdm_free_aux (1 + ap.length) hs dm ap).1 b = deref hs b)
    ∧ ((∀ b, some b ∈ dm :: ap → deref hs b = none) →
        sdm_free_aux (1 + ap.length) hs dm ap = (hs, []))
    ∧ (sdm_free_aux (1 + ap.length) hs dm ap).2.count Event.free_dm
        = ((((dm :: ap).reduceOption).toFinset).filter
            (fun b => (deref hs b).isSome = true)).card
    ∧ sdm_free_aux (1 + ap.length) (sdm_free_aux (1 + ap.length) hs dm ap).1 dm ap
        = ((sdm_free_aux (1 + ap.length) hs dm ap).1, []) := by
  simp only [sdm_free_aux_eq]
  refine ⟨?_, ?_, ?_, ?_, ?_⟩
  · intro b hb
    rw [free_each_deref]; simp only [hb, if_true]
  · intro b hb
    rw [free_each_deref]; simp only [hb, if_false]
  · exact free_each_null hs (dm :: ap)
  · exact free_each_count hs (dm :: ap)
  · apply free_each_null
    intro b hb
    rw [free_each_deref]; simp only [hb, if_true]

/-- Instance of C18: three handles, the first referenced twice, the second
not referenced, the third holding a container with no shard; two containers
are freed, and a second call finds every referenced handle cleared. -/
theorem sdm_free_idempotent_witness :
    sdm_free_aux 3 [some dm_three, none, some dup_three] (some 0) [some 0, some 2]
      = ([none, none, none],
         [Event.sm_free (some ⟨100, 2⟩), Event.sm_free (some ⟨101, 2⟩),
          Event.sm_free (some ⟨102, 2⟩), Event.free_dm, Event.free_dm])
    ∧ sdm_free_aux 3 [none, none, none] (some 0) [some 0, some 2] = ([none, none, none], []) :=
  ⟨by decide,
   (sdm_free_idempotent [some dm_three, none, some dup_three] (some 0) [some 0, some 2]).2.2.2.2⟩

end Sdmap

namespace Stree

/-- C20: `ST_NODE_BITS` is 31 and `ST_NIL` is `2^31 - 1`, the largest value a
field of `ST_NODE_BITS` bits can hold; the node `EMPTY_STN` is black
(`is_red = 0`) and both its child indices are `ST_NIL`. -/
theorem ST_NIL_is_largest_left_index :
    ST_NODE_BITS = 31
    ∧ ST_NIL = 2 ^ 31 - 1
    ∧ ST_NIL < 2 ^ ST_NODE_BITS
    ∧ (∀ v, v < 2 ^ ST_NODE_BITS → v ≤ ST_NIL)
    ∧ EMPTY_STN.is_red = 0
    ∧ EMPTY_STN.l = ST_NIL
    ∧ EMPTY_STN.r = ST_NIL := by
  have h : ST_NIL = 2147483647 := by decide
  refine ⟨rfl, by decide, by decide, ?_, by decide, by decide, by decide⟩
  intro v hv
  rw [h]
  have h2 : 2 ^ ST_NODE_BITS = 2147483648 := by decide
  omega

end Stree

namespace Sdbg

open Stree

/-- C19 (the code departs from the claim): the entry printed for a node is
`[id: (k, v) -> (left, right; r:color)] ` with `nil` for an index equal to
`ST_NIL`; for the types `SM_I32I32`, `SM_U32U32`, `SM_IntInt` and `SM_StrInt`
the buffers `k` and `v` hold the key text and the value text, but for
`SM_IntStr`, `SM_IntPtr`, `SM_StrStr` and `SM_StrPtr` the second switch prints
the value into `k`, so `k` holds the value text and `v` stays empty. -/
theorem aux_sm_log_traverse_buffers (fmt_p : Nat → String) (c lv : Nat) (hdr : stn_t)
    (n : sm_node) :
    aux_sm_log_traverse fmt_p { c := c, cn := some (hdr, n), level := lv }
      = entry_text (ndx2s c) (log_kv fmt_p n).1 (log_kv fmt_p n).2
          (ndx2s hdr.l) (ndx2s hdr.r) (toString hdr.is_red)
    ∧ ndx2s ST_NIL = "nil"
    ∧ (match n.sub_type with
        | eSM_Type.SM_IntStr => log_kv fmt_p n = (value_text fmt_p n, "")
        | eSM_Type.SM_IntPtr => log_kv fmt_p n = (value_text fmt_p n, "")
        | eSM_Type.SM_StrStr => log_kv fmt_p n = (value_text fmt_p n, "")
        | eSM_Type.SM_StrPtr => log_kv fmt_p n = (value_text fmt_p n, "")
        | _ => log_kv fmt_p n = (key_text fmt_p n, value_text fmt_p n)) := by
  refine ⟨rfl, by decide, ?_⟩
  cases n <;> rfl

/-- C19, evaluated at the failing input: a leaf of an `SM_IntStr` map at index
0 with key 5 and its value string at address 4096.  The key 5 is not printed
and the value text is empty. -/
theorem aux_sm_log_traverse_buffers_witness :
    aux_sm_log_traverse fmt_p_dec
        { c := 0, cn := some (EMPTY_STN, sm_node.SMapIS 5 4096), level := 0 }
      = "[0: (0x4096, ) -> (nil, nil; r:0)] "
    ∧ log_kv fmt_p_dec (sm_node.SMapIS 5 4096) = ("0x4096", "")
    ∧ key_text fmt_p_dec (sm_node.SMapIS 5 4096) = "5" :=
  ⟨by decide,
   (aux_sm_log_traverse_buffers fmt_p_dec 0 0 EMPTY_STN (sm_node.SMapIS 5 4096)).2.2,
   by decide⟩

end Sdbg
